import Mathlib

/-!
# Verification of the bakana analysis-pipeline state graph

A shallow embedding of the parts of the bakana source relevant to the
frozen claims: the quality-control step, the cell-filtering step, the
UMAP embedding step, the clustering choice step, the multi-dataset
feature-matching/merge engine, the preflight validator and the
parameter accessors.  JavaScript numbers are modelled as rationals
(`ℚ`), JS arrays as lists, optional/undefined fields as `Option`, and
thrown errors as `Except String`.  External Compute Engine collaborators
(scran.js kernels, the embedding worker) are modelled either as opaque
function fields of an environment structure or, where a claim depends on
their documented boundary contract, as definitions marked
"Modelled from the spec".
-/

namespace Bakana

/-! ## Quality control step (src/steps/quality_control.js) -/

namespace QC

/-- Result handle of `scran.computePerCellQCMetrics` as observed through its
accessors (`sums`, `detected`, `subsetProportions(0)`). -/
structure Metrics where
  sums : List ℚ
  detected : List ℚ
  props : List ℚ
  deriving DecidableEq

/-- The three per-block threshold vectors of a QC filter result, as
observed through `thresholdsSums`, `thresholdsDetected`,
`thresholdsSubsetProportions(0)`. -/
structure ThreshTriple where
  sums : List ℚ
  detected : List ℚ
  props : List ℚ
  deriving DecidableEq

/-- Result handle of `scran.computePerCellQCFilters` (or its deserialized
`QCFiltersMimic` stand-in, which answers the same accessors from stored
values). -/
structure Filters where
  thresholds : ThreshTriple
  discards : List Bool
  deriving DecidableEq

/-- `#parameters` of `QualityControlState`.  Fields are `Option` because the
state starts with the empty parameter object `{}`; a `none` models the JS
`undefined`, which compares unequal (`!==`) to every concrete argument. -/
structure Params where
  skip : Option Bool
  useMitoDefault : Option Bool
  mitoPref : Option String
  nmads : Option ℚ
  deriving DecidableEq

/-- `#cache` of `QualityControlState`: the `metrics` and `filters` entries may
be absent (deleted while skipping). -/
structure Cache where
  metrics : Option Metrics
  filters : Option Filters
  deriving DecidableEq

structure State where
  params : Params
  cache : Cache
  changed : Bool
  deriving DecidableEq

/-- What `QualityControlState.compute`/`summary` read from the upstream
`InputsState`: its `changed` flag, the RNA count matrix (rows = genes),
the per-gene annotation columns, and the block vector with its levels. -/
structure InputsView where
  changed : Bool
  matrix : List (List ℚ)
  genes : List (String × List String)
  block : Option (List ℤ)
  blockLevels : Option (List String)

/-- The external Compute Engine collaborators used by the QC step: the
mitochondrial gene lists from `mito.js` and the two scran.js kernels.
The kernels are opaque functions; nothing in the claims depends on their
numeric output. -/
structure Env where
  mitoSymbol : List String
  mitoEnsembl : List String
  computePerCellQCMetrics : List (List ℚ) → List Bool → Metrics
  computePerCellQCFilters : Metrics → ℚ → Option (List ℤ) → Filters

/-- The per-gene test applied inside the `compute` loop: membership in the
default mitochondrial lists, or a case-insensitive prefix match. -/
def isMito (env : Env) (useMitoDefault : Bool) (mitoPref : String) (x : String) : Bool :=
  if useMitoDefault then decide (x ∈ env.mitoSymbol) || decide (x ∈ env.mitoEnsembl)
  else x.toLower.startsWith mitoPref.toLower

/-- One pass of `val.forEach((x, i) => { if (...) sub_arr[i] = 1; })`:
positions of `arr` whose corresponding annotation entry passes `p` are set.
Writes beyond the subset buffer length are dropped (TypedArray semantics). -/
def markCol (p : String → Bool) (arr : List Bool) (col : List String) : List Bool :=
  arr.enum.map (fun e => if h : e.1 < col.length then (e.2 || p (col.get ⟨e.1, h⟩)) else e.2)

/-- The `subsets` buffer built by `compute`: length `numberOfRows`, zeroed,
then marked once per gene-annotation column. -/
def mitoSubset (env : Env) (inputs : InputsView) (useMitoDefault : Bool) (mitoPref : String) :
    List Bool :=
  inputs.genes.foldl (fun arr kv => markCol (isMito env useMitoDefault mitoPref) arr kv.2)
    (List.replicate inputs.matrix.length false)

/-- `QualityControlState.compute(skip, use_mito_default, mito_prefix, nmads)`.
Returns the new state together with two flags recording whether the
metrics kernel (resp. the filters kernel) was actually re-run. -/
def compute (env : Env) (inputs : InputsView) (s : State)
    (skip useMitoDefault : Bool) (mitoPref : String) (nmads : ℚ) :
    State × Bool × Bool :=
  let unskipMetrics : Bool := !skip && s.cache.metrics.isNone
  let unskipFilters : Bool := !skip && s.cache.filters.isNone
  let run1 : Bool := inputs.changed
      || decide (s.params.useMitoDefault ≠ some useMitoDefault)
      || decide (s.params.mitoPref ≠ some mitoPref)
      || unskipMetrics
  let metrics1 : Option Metrics :=
    if run1 then
      (if skip then none
       else some (env.computePerCellQCMetrics inputs.matrix
                    (mitoSubset env inputs useMitoDefault mitoPref)))
    else s.cache.metrics
  let params1 : Params :=
    if run1 then { s.params with useMitoDefault := some useMitoDefault, mitoPref := some mitoPref }
    else s.params
  let run2 : Bool := run1 || decide (s.params.nmads ≠ some nmads) || unskipFilters
  let filters2 : Option Filters :=
    if run2 then
      (if skip then none
       else match metrics1 with
            | some m => some (env.computePerCellQCFilters m nmads inputs.block)
            | none => none)  -- unreachable with skip = false: metrics1 was just recreated
    else s.cache.filters
  let params2 : Params := if run2 then { params1 with nmads := some nmads } else params1
  let changed2 : Bool := run1 || run2
  let out :=
    if s.params.skip ≠ some skip then
      ({ params := { params2 with skip := some skip },
         cache := { metrics := metrics1, filters := filters2 }, changed := true }, run1, run2)
    else if s.params.skip = some true ∧ skip then
      ({ params := params2,
         cache := { metrics := metrics1, filters := filters2 }, changed := false }, run1, run2)
    else
      ({ params := params2,
         cache := { metrics := metrics1, filters := filters2 }, changed := changed2 }, run1, run2)
  (out.1, out.2.1 && !skip, out.2.2 && !skip)

/-- `skipped()`: the raw `#parameters.skip`, with JS truthiness of
`undefined`. -/
def skipped (s : State) : Bool := s.params.skip.getD false

/-- `#format_thresholds()`. -/
def formatThresholds (f : Filters) : ThreshTriple := f.thresholds

/-- The `quality_control` group written by `serialize`: a `parameters`
subgroup (booleans stored as `Number(...)` in `Uint8` datasets) and a
`results` subgroup whose `metrics` and `thresholds`/`discards` entries are
present only when cached. -/
structure Container where
  skip : Option ℕ
  useMitoDefault : ℕ
  mitoPref : String
  nmads : ℚ
  metrics : Option Metrics
  thresholds : Option ThreshTriple
  discards : Option (List Bool)
  deriving DecidableEq

/-- `QualityControlState.serialize`.  `none` models the fact that a state
whose parameters were never set cannot be serialized meaningfully (the JS
code would write `undefined`); every computed or deserialized state has all
four parameters set. -/
def serialize (s : State) : Option Container :=
  match s.params.skip, s.params.useMitoDefault, s.params.mitoPref, s.params.nmads with
  | some sk, some u, some mp, some nm =>
      some { skip := some (if sk then 1 else 0),
             useMitoDefault := if u then 1 else 0,
             mitoPref := mp,
             nmads := nm,
             metrics := s.cache.metrics,
             thresholds := s.cache.filters.map formatThresholds,
             discards := s.cache.filters.map (·.discards) }
  | _, _, _, _ => none

/-- `unserialize(handle, inputs)` for the quality-control group.  The
reconstructed metrics object answers its accessors with the stored vectors;
the filters are rebuilt as a `QCFiltersMimic` from the stored thresholds and
discard vector.  `none` models the error thrown when `thresholds` is present
but `discards` is missing from the container. -/
def unserialize (c : Container) : Option State :=
  let params : Params :=
    { skip := some (match c.skip with | some v => decide (v > 0) | none => false),
      useMitoDefault := some (decide (c.useMitoDefault > 0)),
      mitoPref := some c.mitoPref,
      nmads := some c.nmads }
  match c.thresholds, c.discards with
  | some t, some d =>
      some { params := params,
             cache := { metrics := c.metrics,
                        filters := some { thresholds := t, discards := d } },
             changed := false }
  | none, _ =>
      some { params := params,
             cache := { metrics := c.metrics, filters := none },
             changed := false }
  | some _, none => none

/-- `summary()`.  The two `qcutils.split*ByBlock` helpers live in
`utils/quality_control.js` and are applied identically by the original and
the deserialized state, so they are taken as opaque function arguments.
The outer `Option` is `none` when the JS code would fault on a missing
cache entry; the inner `Option` is the documented `null` return for a
skipped state. -/
def summary {σ τ : Type}
    (splitMetricsByBlock : Metrics → List String → Option (List ℤ) → List (String × σ))
    (formatOne : Metrics → σ)
    (splitThresholdsByBlock : ThreshTriple → List String → τ)
    (inputs : InputsView) (s : State) :
    Option (Option (List (String × σ) × τ)) :=
  if skipped s then some none
  else
    match s.cache.metrics, s.cache.filters with
    | some me, some fi =>
        let bd : List String × List (String × σ) :=
          match inputs.blockLevels with
          | none => (["default"], [("default", formatOne me)])
          | some bl => (bl, splitMetricsByBlock me bl inputs.block)
        some (some (bd.2, splitThresholdsByBlock (formatThresholds fi) bd.1))
    | _, _ => none

end QC

/-! ## Cell filtering step (src/cell_filtering.js) -/

namespace CellFilt

/-- What `CellFilteringState` reads from one upstream QC state: its
`valid()` and `changed` flags and its discard vector. -/
structure QCView where
  valid : Bool
  changed : Bool
  discards : List Bool
  deriving DecidableEq

/-- The `changed`-flag computation of `CellFilteringState.compute`:
`changed = false`, set on `inputs.changed`, then set for every upstream QC
state that is valid and changed. -/
def computeChanged (inputsChanged : Bool) (qcs : List (String × QCView)) : Bool :=
  qcs.foldl (fun c q => if q.2.valid && q.2.changed then true else c) inputsChanged

/-- A Wasm buffer with its ownership tag: `owner = none` for an owned
buffer, `owner = some k` for a view borrowing the buffer of the QC state
named `k`. -/
structure WBuf where
  data : List Bool
  owner : Option String
  deriving DecidableEq

/-- The part of the `CellFilteringState` cache that `serialize` reads:
the discard buffer returned by `fetchDiscards()`. -/
structure State where
  discardBuffer : WBuf
  deriving DecidableEq

/-- The `results` subgroup written for `cell_filtering`: the `discards`
dataset is present only when the buffer is not a view. -/
structure Container where
  discards : Option (List Bool)
  deriving DecidableEq

/-- `CellFilteringState.serialize`: the discard vector is written only when
`disc.owner === null`. -/
def serialize (s : State) : Container :=
  { discards := if s.discardBuffer.owner = none then some s.discardBuffer.data else none }

/-- Modelled from the spec: `utils.findValidUpstreamStates`
(utils/general.js is not among the sources; only its callers are).  It
returns the keys of the upstream states whose `valid()` is true, in key
order. -/
def findValidUpstreamStates (qcs : List (String × QCView)) : List String :=
  (qcs.filter (fun q => q.2.valid)).map (·.1)

/-- `unserialize(handle, inputs, qc_states)` for `cell_filtering`: when the
`discards` dataset is absent, the discard buffer is reconstructed as a view
on the unique valid upstream QC state, and an error is thrown when that
state is not unique. -/
def unserialize (c : Container) (qcs : List (String × QCView)) : Except String State :=
  match c.discards with
  | some d => .ok { discardBuffer := { data := d, owner := none } }
  | none =>
      match qcs.filter (fun q => q.2.valid) with
      | [q] => .ok { discardBuffer := { data := q.2.discards, owner := some q.1 } }
      | _ => .error
          "only one upstream QC state should be valid if \x27discards\x27 is not available"

end CellFilt

/-! ## Clustering choice step (src/steps/choose_clustering.js) -/

namespace Choose

structure State where
  method : Option String
  changed : Bool
  deriving DecidableEq

/-- `ChooseClusteringState.compute(method)`: `changed` starts true and is
reset only when the method is unchanged and the corresponding clustering
state did not change; `#parameters.method` is then overwritten. -/
def compute (snnChanged kmeansChanged : Bool) (s : State) (method : String) : State :=
  let c : Bool :=
    if s.method = some method then
      if method = "snn_graph" then (if !snnChanged then false else true)
      else if method = "kmeans" then (if !kmeansChanged then false else true)
      else true
    else true
  { method := some method, changed := c }

end Choose

/-! ## UMAP embedding step (src/steps/umap.js, first document) -/

namespace Umap

/-- `#parameters` of `UmapState`; `none` models fields absent from the
initial `{}`. -/
structure Params where
  numNeighbors : Option ℚ
  numEpochs : Option ℚ
  minDist : Option ℚ
  animate : Option Bool
  deriving DecidableEq

/-- The observable state of the UMAP worker thread after a run: the final
coordinates and the number of iterations processed, as returned by the
`FETCH` command.  Modelled from the spec: the worker runs the requested
number of epochs and keeps the resulting coordinates. -/
structure Worker where
  x : List ℚ
  y : List ℚ
  iterations : ℚ
  deriving DecidableEq

/-- The external layout kernel executed by the worker, as a deterministic
function of the run parameters. -/
structure Env where
  run : ℚ → ℚ → ℚ → List ℚ × List ℚ

structure State where
  params : Params
  reloaded : Option (List ℚ × List ℚ)
  worker : Worker
  changed : Bool
  deriving DecidableEq

/-- A `RUN` message sent to the worker by `runWithNeighbors`:
`neighbors = some k` when a freshly computed neighbor payload for neighbor
count `k` is attached, `none` when the worker reuses its previous
neighbors. -/
structure RunMsg where
  numNeighbors : ℚ
  numEpochs : ℚ
  minDist : ℚ
  animate : Bool
  neighbors : Option ℚ
  deriving DecidableEq

/-- `UmapState.compute(num_neighbors, num_epochs, min_dist, animate)`.
`indexChanged` is the upstream `NeighborIndexState.changed` flag.  Returns
the new state and the list of messages dispatched to the worker. -/
def compute (env : Env) (indexChanged : Bool) (s : State)
    (k e m : ℚ) (animate : Bool) : State × List RunMsg :=
  let sameNeighbors : Bool := !indexChanged && decide (s.params.numNeighbors = some k)
  if sameNeighbors && decide (s.params.numEpochs = some e)
      && decide (s.params.minDist = some m) then
    ({ s with changed := false }, [])
  else
    let sameNeighbors2 : Bool := if s.reloaded.isSome then false else sameNeighbors
    let msg : RunMsg :=
      { numNeighbors := k, numEpochs := e, minDist := m, animate := animate,
        neighbors := if sameNeighbors2 then none else some k }
    let coords := env.run k e m
    ({ params := { numNeighbors := some k, numEpochs := some e,
                   minDist := some m, animate := some animate },
       reloaded := none,
       worker := { x := coords.1, y := coords.2, iterations := e },
       changed := true }, [msg])

/-- Whether any dispatched message carries a neighbor payload. -/
def sendsNeighbors (msgs : List RunMsg) : Bool :=
  msgs.any (fun msg => msg.neighbors.isSome)

/-- The value resolved by `#fetch_results`/`summary`. -/
structure Results where
  x : List ℚ
  y : List ℚ
  iterations : ℚ
  deriving DecidableEq

/-- `#fetch_results`: a reloaded state answers from the deserialized
coordinates with `iterations = #parameters.num_epochs` (reloaded states
always carry fully-set parameters); a live state fetches from the
worker. -/
def fetchResults (s : State) : Results :=
  match s.reloaded with
  | some r => { x := r.1, y := r.2, iterations := s.params.numEpochs.getD 0 }
  | none => { x := s.worker.x, y := s.worker.y, iterations := s.worker.iterations }

/-- `summary()` returns the fetched results (as copies; copying is
identity in this value model). -/
def summary (s : State) : Results := fetchResults s

/-- The `umap` group written by `serialize`: the four parameters
(`animate` as `Number(...)` in a `Uint8` dataset) plus the `x`/`y`
coordinate datasets. -/
structure Container where
  numNeighbors : ℚ
  numEpochs : ℚ
  minDist : ℚ
  animate : ℕ
  x : List ℚ
  y : List ℚ
  deriving DecidableEq

/-- `UmapState.serialize`; `none` when the parameters were never set (the
JS code would write `undefined`). -/
def serialize (s : State) : Option Container :=
  match s.params.numNeighbors, s.params.numEpochs, s.params.minDist, s.params.animate with
  | some k, some e, some m, some a =>
      let res := fetchResults s
      some { numNeighbors := k, numEpochs := e, minDist := m,
             animate := if a then 1 else 0, x := res.x, y := res.y }
  | _, _, _, _ => none

/-- `unserialize(handle, index)` for the `umap` group: parameters are read
back (`animate` via `> 0`) and the coordinates populate `reloaded`; the
fresh worker holds no state yet. -/
def unserialize (c : Container) : State :=
  { params := { numNeighbors := some c.numNeighbors, numEpochs := some c.numEpochs,
                minDist := some c.minDist, animate := some (decide (c.animate > 0)) },
    reloaded := some (c.x, c.y),
    worker := { x := [], y := [], iterations := 0 },
    changed := false }

end Umap

/-! ## Feature-type matching and multi-dataset binding
(src/steps/umap.js, second document: the inputs step and its merge
internals) -/

namespace Feat

/-- The four candidate identifier families scored by
`scran.guessFeatures`: symbol vs. Ensembl accession, crossed with the two
reference species.  The order of `allFams` is the insertion order of the
`scores` object in `commonFeatureTypes`. -/
inductive Fam
  | symbolMouse
  | symbolHuman
  | ensemblMouse
  | ensemblHuman
  deriving DecidableEq

def allFams : List Fam := [.symbolMouse, .symbolHuman, .ensemblMouse, .ensemblHuman]

/-- The `{type, species, confidence}` answer of `scran.guessFeatures` for
one annotation column, with `type-species` collapsed into `Fam`. -/
structure Guess where
  fam : Fam
  confidence : ℚ
  deriving DecidableEq

/-- One gene-annotation column: its identifier values together with the
guess the external `scran.guessFeatures` collaborator returns for them. -/
structure Column where
  values : List String
  guess : Guess
  deriving DecidableEq

/-- A per-modality gene-annotation table: an ordered object mapping column
names to columns. -/
abbrev GeneTable : Type := List (String × Column)

/-- JS object lookup on an ordered string-keyed object. -/
def jsGet {α : Type} (l : List (String × α)) (k : String) : Option α :=
  (l.find? (fun kv => kv.1 = k)).map (·.2)

/-- One iteration of the inner loop of `commonFeatureTypes`: the column
`kv` replaces the current best entry of its guessed family only when its
confidence is strictly greater (so the first maximum in column order is
kept). -/
def bpfStep (best : Fam → Option (ℚ × String)) (kv : String × Column) :
    Fam → Option (ℚ × String) :=
  match best kv.2.guess.fam with
  | none => Function.update best kv.2.guess.fam (some (kv.2.guess.confidence, kv.1))
  | some bc =>
      if kv.2.guess.confidence > bc.1 then
        Function.update best kv.2.guess.fam (some (kv.2.guess.confidence, kv.1))
      else best

/-- The inner loop of `commonFeatureTypes` for one dataset: per family, the
best `(confidence, column name)` pair. -/
def bestPerFamily (cols : GeneTable) : Fam → Option (ℚ × String) :=
  cols.foldl bpfStep (fun _ => none)

/-- `scores[f]` after the per-dataset loop: the representative confidences
of family `f`, one per dataset that produced a representative, in dataset
order. -/
def famScores (ds : List (String × GeneTable)) (f : Fam) : List ℚ :=
  ds.filterMap (fun d => (bestPerFamily d.2 f).map Prod.fst)

/-- `fields[f]` after the per-dataset loop: the representative column names
of family `f`. -/
def famFields (ds : List (String × GeneTable)) (f : Fam) : List String :=
  ds.filterMap (fun d => (bestPerFamily d.2 f).map Prod.snd)

/-- JS `Array.prototype.reduce((a, b) => a * b)` without an initial value:
undefined (a thrown TypeError) on the empty array. -/
def jsReduceMul : List ℚ → Option ℚ
  | [] => none
  | h :: t => some (t.foldl (· * ·) h)

/-- A family is eligible when it is represented in all entries
(`v.length == names.length`). -/
def eligible (ds : List (String × GeneTable)) (f : Fam) : Prop :=
  (famScores ds f).length = ds.length

instance (ds : List (String × GeneTable)) (f : Fam) : Decidable (eligible ds f) := by
  unfold eligible
  infer_instance

/-- One iteration of the selection loop of `commonFeatureTypes`: an
eligible family whose confidence product is strictly greater than the
current best score replaces it.  The `none` branch of `jsReduceMul`
(a TypeError in the source) is only reachable when `ds` is empty; all
callers pass at least one dataset. -/
def cbtStep (ds : List (String × GeneTable)) (acc : ℚ × Option Fam) (f : Fam) :
    ℚ × Option Fam :=
  let v := famScores ds f
  if v.length = ds.length then
    match jsReduceMul v with
    | some n => if n > acc.1 then (n, some f) else acc
    | none => acc
  else acc

/-- The selection loop of `commonFeatureTypes`, starting from
`best_score = -1000`. -/
def chooseBestType (ds : List (String × GeneTable)) : Option Fam :=
  (allFams.foldl (cbtStep ds) ((-1000 : ℚ), (none : Option Fam))).2

structure CFTResult where
  bestType : Option Fam
  bestFields : List (String × String)
  deriving DecidableEq

/-- `commonFeatureTypes(genes)`: the winning family and, when one exists,
the dataset-name-to-column-name map built from its representative
columns. -/
def commonFeatureTypes (ds : List (String × GeneTable)) : CFTResult :=
  match chooseBestType ds with
  | none => { bestType := none, bestFields := [] }
  | some f => { bestType := some f, bestFields := (ds.map (·.1)).zip (famFields ds f) }

/-- One loaded dataset as seen by `bind_single_modality`: per-modality gene
tables (possibly `null`) and the modalities available in its
`MultiMatrix`.  The numeric cell content of the matrices is handled by the
external engine and does not appear in any claim, so only the modality
names are kept. -/
structure DS where
  genes : List (String × Option GeneTable)
  modalities : List String
  deriving DecidableEq

/-- The output of `scran.cbindWithNames` as far as row identity is
concerned. -/
structure Merged where
  names : List String
  indices : List ℕ
  deriving DecidableEq

/-- Modelled from the spec: `scran.cbindWithNames` (external Compute
Engine collaborator) column-binds matrices using row names as the join
key, "keeping genes in the order they appear in the first dataset,
retaining only the identifiers common to all"; `indices` are the retained
row positions in the first dataset.  The numeric cell values are produced
by the engine and are not tracked here. -/
def cbindWithNames (gnames : List (List String)) : Merged :=
  match gnames with
  | [] => { names := [], indices := [] }
  | g0 :: grest =>
      let keep := g0.enum.filter (fun e => grest.all (fun g => decide (e.2 ∈ g)))
      { names := keep.map (·.2), indices := keep.map (·.1) }

/-- Modelled from the spec: `scran.subsetArrayCollection` subsets every
column of an annotation collection to the given row indices. -/
def subsetArrayCollection (genes : GeneTable) (indices : List ℕ) :
    List (String × List String) :=
  genes.map (fun kv => (kv.1, indices.map (fun i => kv.2.values.getD i "")))

/-- The first loop of `bind_single_modality`: collect `genes[k] =
datasets[k].genes[type]` over `dkeys`, throwing at the first dataset whose
table for this modality is `null`.  A missing dataset key or a modality
absent from the `genes` object would fault in the source and is modelled
as a `TypeError`; the callers guarantee both lookups succeed. -/
def collectGenes (datasets : List (String × DS)) (type : String) :
    List String → Except String (List (String × GeneTable))
  | [] => .ok []
  | k :: rest =>
      match jsGet datasets k with
      | none => .error "TypeError"
      | some d =>
          match jsGet d.genes type with
          | some (some g) => (collectGenes datasets type rest).map (fun l => (k, g) :: l)
          | some none =>
              .error ("no gene annotations found in matrix \x27" ++ k ++ "\x27")
          | none => .error "TypeError"

/-- The merged output of one modality: the join-key names of the retained
genes (in first-dataset order), their row indices in the first dataset,
and the merged gene-annotation table. -/
structure BindOut where
  names : List String
  indices : List ℕ
  genes : List (String × List String)
  deriving DecidableEq

/-- The join-key vector of one dataset: the identifier values of the
representative column that `best_fields` names for it.  The `none`
fallbacks model JS `undefined` accesses that cannot occur when a best
type was found. -/
def chosenOf (res : CFTResult) (kv : String × GeneTable) : List String :=
  match jsGet res.bestFields kv.1 with
  | some col => ((jsGet kv.2 col).map (·.values)).getD []
  | none => []

/-- The `gnames` loop of `bind_single_modality`: the join-key vector of
every dataset. -/
def gnamesOf (genes : List (String × GeneTable)) (res : CFTResult) : List (List String) :=
  genes.map (chosenOf res)

/-- `bind_single_modality(dkeys, datasets, type)`: pick the winning
feature family, column-bind with the per-dataset representative columns as
join keys, and carry the first dataset's annotation columns through. -/
def bind_single_modality (dkeys : List String) (datasets : List (String × DS))
    (type : String) : Except String BindOut := do
  let genes ← collectGenes datasets type dkeys
  let result := commonFeatureTypes genes
  match result.bestType with
  | none => .error "no common feature types available across all matrices"
  | some _ =>
      let merged := cbindWithNames (gnamesOf genes result)
      let firstGenes : GeneTable := (genes.head?.map (·.2)).getD []
      .ok { names := merged.names, indices := merged.indices,
            genes := subsetArrayCollection firstGenes merged.indices }

end Feat

/-! ## Preflight validation (src/cell_filtering.js, second document:
`validateAnnotations`, current revision) -/

namespace Preflight

/-- The per-matrix preflight answer of a reader collaborator: the
per-modality gene tables (or `null`) and an opaque annotation summary. -/
structure PF where
  genes : Option (List (String × Feat.GeneTable))
  annots : List String
  deriving DecidableEq

/-- Per-modality feature information in the result. -/
structure FeatInfo where
  common : Option ℕ
  fields : Option (List (String × String))
  deriving DecidableEq

structure VAOut where
  annots : List (String × List String)
  features : List (String × FeatInfo)
  deriving DecidableEq

/-- The first loop of `validateAnnotations`: keep the matrices that have
gene annotations, failing on the first one that lacks them when more than
one matrix is present. -/
def collectPF (multi : Bool) :
    List (String × PF) → Except String (List (String × List (String × Feat.GeneTable)))
  | [] => .ok []
  | (k, p) :: rest =>
      match p.genes with
      | some g => (collectPF multi rest).map (fun l => (k, g) :: l)
      | none =>
          if multi then
            .error ("cannot find gene annotations for matrix \x27" ++ k ++ "\x27")
          else collectPF multi rest

/-- The modality intersection: `null` until the first entry, then filtered
through each successive entry's keys. -/
def modalitiesOf (genes : List (String × List (String × Feat.GeneTable))) :
    Option (List String) :=
  genes.foldl
    (fun acc kv =>
      match acc with
      | none => some (kv.2.map (·.1))
      | some ms => some ((kv.2.map (·.1)).filter (fun m => decide (m ∈ ms))))
    none

/-- The per-modality intersection loop: the identifiers of the chosen
column of the first dataset, successively filtered by membership in each
later dataset's chosen column. -/
def intersectChosen (genes2 : List (String × Feat.GeneTable))
    (fields : List (String × String)) : List String :=
  (fields.foldl
    (fun (acc : Option (List String)) kv =>
      let cur : List String :=
        match Feat.jsGet genes2 kv.1 with
        | some tab => ((Feat.jsGet tab kv.2).map (·.values)).getD []
        | none => []
      match acc with
      | none => some cur
      | some l => some (l.filter (fun n => List.contains cur n)))
    none).getD []

/-- The body of the per-modality loop of `validateAnnotations`. -/
def featFor (multi : Bool) (genes : List (String × List (String × Feat.GeneTable)))
    (m : String) : Except String FeatInfo :=
  let genes2 : List (String × Feat.GeneTable) :=
    genes.map (fun kv => (kv.1, (Feat.jsGet kv.2 m).getD []))
  let results := Feat.commonFeatureTypes genes2
  match results.bestType with
  | none => .error "cannot find common feature types across all matrices"
  | some _ =>
      if multi then
        .ok { common := some (intersectChosen genes2 results.bestFields).length,
              fields := some results.bestFields }
      else
        .ok { common := some ((((genes2.head?.map (·.2)).getD []).head?.map
                (fun kv => kv.2.values.length)).getD 0),
              fields := some results.bestFields }

/-- `validateAnnotations(matrices)` on the already-collected preflight
answers (the readers themselves are format-specific collaborators).  Note
that the current revision never checks the intersection for emptiness: it
only records its size in `features[m].common`. -/
def validateAnnotations (collected : List (String × PF)) : Except String VAOut := do
  let multi := decide (collected.length > 1)
  let genes ← collectPF multi collected
  let annots := collected.map (fun kv => (kv.1, kv.2.annots))
  match modalitiesOf genes with
  | none => .ok { annots := annots, features := [("RNA", { common := none, fields := none })] }
  | some ms =>
      let features ← ms.mapM (fun m => (featFor multi genes m).map (fun fi => (m, fi)))
      .ok { annots := annots, features := features }

end Preflight

/-! ## Parameter accessors and pass-by-reference (C10)

`fetchParameters`/`fetchSelections` return copies so that callers cannot
mutate the stored parameters through the returned value.  To state this,
JS arrays are given identities: a `Store` maps references to array
contents, `slice()` allocates a fresh reference with the same contents,
and the stored parameters hold references.  Mutating "the returned value"
is updating the store at a reference reachable from it. -/

namespace FetchP

abbrev Ref := ℕ

/-- A heap cell: an array of numbers, an array of strings, or an array of
references (the outer `ranges` array whose entries are the inner
two-number arrays). -/
inductive HVal
  | nums (l : List ℚ)
  | strs (l : List String)
  | refs (l : List Ref)
  deriving DecidableEq

/-- The array heap together with the next fresh reference. -/
structure Store where
  heap : Ref → HVal
  next : ℕ

/-- Allocate a fresh array holding `v` (the result of a `slice()` or an
array literal). -/
def alloc (st : Store) (v : HVal) : Ref × Store :=
  (st.next, { heap := Function.update st.heap st.next v, next := st.next + 1 })

/-- The stored `subset` parameter of `InputsState`: a `field` string plus
either a `values` array or a `ranges` array of two-number arrays. -/
structure SubsetR where
  field : String
  values : Option Ref
  ranges : Option Ref
  deriving DecidableEq

/-- The stored `#parameters` of `InputsState` (the input files are not
kept in `#parameters`). -/
structure InputsParamsR where
  sampleFactor : Option String
  subset : Option SubsetR
  deriving DecidableEq

/-- One step of `ranges.map(x => x.slice())`: allocate a copy of the next
inner range array. -/
def cloneStep (acc : List Ref × Store) (ri : Ref) : List Ref × Store :=
  let a := alloc acc.2 (acc.2.heap ri)
  (acc.1 ++ [a.1], a.2)

/-- `InputsState.#cloneSubset`: a shallow spread of the subset object,
with `values` replaced by `values.slice()` and `ranges` by
`ranges.map(x => x.slice())`.  The `.refs` match arm mirrors the fact that
a well-formed `ranges` cell holds an array of inner arrays; on an
ill-formed heap the reference is passed through unchanged. -/
def cloneSubset (st : Store) (s : Option SubsetR) : Option SubsetR × Store :=
  match s with
  | none => (none, st)
  | some sub =>
      let v2 : Option Ref × Store :=
        match sub.values with
        | none => (none, st)
        | some r =>
            let a := alloc st (st.heap r)
            (some a.1, a.2)
      let r2 : Option Ref × Store :=
        match sub.ranges with
        | none => (none, v2.2)
        | some r =>
            match v2.2.heap r with
            | .refs inner =>
                let cloned := inner.foldl cloneStep ([], v2.2)
                let outer := alloc cloned.2 (.refs cloned.1)
                (some outer.1, outer.2)
            | _ => (some r, v2.2)
      (some { field := sub.field, values := v2.1, ranges := r2.1 }, r2.2)

/-- `InputsState.fetchParameters`: a shallow spread of the parameter
object with the subset replaced by its clone. -/
def fetchParameters (st : Store) (p : InputsParamsR) : InputsParamsR × Store :=
  let c := cloneSubset st p.subset
  ({ sampleFactor := p.sampleFactor, subset := c.1 }, c.2)

/-- `CustomSelectionsState.#parameters.selections`: name-keyed arrays of
cell indices. -/
abbrev Selections : Type := List (String × Ref)

/-- One step of `fetchSelections`: allocate a `slice()` of the next
selection array under its name. -/
def selStep (acc : Selections × Store) (kv : String × Ref) : Selections × Store :=
  let a := alloc acc.2 (acc.2.heap kv.2)
  (acc.1 ++ [(kv.1, a.1)], a.2)

/-- `CustomSelectionsState.fetchSelections`: a fresh object holding a
`slice()` of every selection array. -/
def fetchSelections (st : Store) (sel : Selections) : Selections × Store :=
  sel.foldl selStep ([], st)

/-- The references reachable from a subset parameter: the `values` array,
the outer `ranges` array, and the inner range arrays it holds. -/
def subsetRefs (h : Ref → HVal) (s : Option SubsetR) : List Ref :=
  match s with
  | none => []
  | some sub =>
      sub.values.toList ++
      (match sub.ranges with
       | none => []
       | some r => r :: (match h r with | .refs l => l | _ => []))

/-- The references reachable from a selections object. -/
def selRefs (sel : Selections) : List Ref := sel.map (·.2)

/-- The value a subset parameter denotes: what `compute`'s deep parameter
comparison and `harvest_subset_indices` consult. -/
structure SubsetVal where
  field : String
  values : Option HVal
  ranges : Option (List HVal)
  deriving DecidableEq

/-- Read a subset parameter through the heap. -/
def readSubset (h : Ref → HVal) (s : Option SubsetR) : Option SubsetVal :=
  match s with
  | none => none
  | some sub =>
      some { field := sub.field,
             values := sub.values.map h,
             ranges := sub.ranges.map (fun r =>
               match h r with | .refs l => l.map h | v => [v]) }

/-- Read a selections object through the heap. -/
def readSelections (h : Ref → HVal) (sel : Selections) : List (String × HVal) :=
  sel.map (fun kv => (kv.1, h kv.2))

/-- A stored parameter object is well formed in a store when every
reachable reference was allocated before `next`. -/
def wfSubset (st : Store) (p : InputsParamsR) : Prop :=
  ∀ r ∈ subsetRefs st.heap p.subset, r < st.next

def wfSelections (st : Store) (sel : Selections) : Prop :=
  ∀ r ∈ selRefs sel, r < st.next

instance (st : Store) (p : InputsParamsR) : Decidable (wfSubset st p) := by
  unfold wfSubset
  infer_instance

instance (st : Store) (sel : Selections) : Decidable (wfSelections st sel) := by
  unfold wfSelections
  infer_instance

end FetchP

/-! ## Concrete fixtures

Small closed instances used by the counterexamples and by the witnesses
of the proved theorems. -/

namespace Fix

/-- A trivial engine: empty mitochondrial lists and constant kernels. -/
def qcEnv : QC.Env :=
  { mitoSymbol := [], mitoEnsembl := [],
    computePerCellQCMetrics := fun _ _ => { sums := [], detected := [], props := [] },
    computePerCellQCFilters := fun _ _ _ =>
      { thresholds := { sums := [], detected := [], props := [] }, discards := [] } }

/-- An inputs view whose last `compute` did not change anything. -/
def inputsQuiet : QC.InputsView :=
  { changed := false, matrix := [[1]], genes := [("id", ["g1"])],
    block := none, blockLevels := none }

/-- An inputs view whose last `compute` reported a change. -/
def inputsBusy : QC.InputsView := { inputsQuiet with changed := true }

def qcMetrics : QC.Metrics := { sums := [1], detected := [2], props := [3] }

def qcFilters : QC.Filters :=
  { thresholds := { sums := [4], detected := [5], props := [6] }, discards := [true, false] }

/-- A QC state that has been computed with `skip = false` and the default
parameters. -/
def qcComputed : QC.State :=
  { params := { skip := some false, useMitoDefault := some true,
                mitoPref := some "mt-", nmads := some 3 },
    cache := { metrics := some qcMetrics, filters := some qcFilters },
    changed := false }

/-- A QC state that was last computed with `skip = true` (its cache was
cleared by an earlier upstream change). -/
def qcSkipped : QC.State :=
  { params := { skip := some true, useMitoDefault := some true,
                mitoPref := some "mt-", nmads := some 3 },
    cache := { metrics := none, filters := none },
    changed := false }

def umapEnv : Umap.Env := { run := fun _ _ _ => ([0], [0]) }

/-- A UMAP state that has been computed live with `k = 15`, 500 epochs. -/
def umapComputed : Umap.State :=
  { params := { numNeighbors := some 15, numEpochs := some 500,
                minDist := some 1, animate := some false },
    reloaded := none,
    worker := { x := [1], y := [2], iterations := 500 },
    changed := true }

/-- A UMAP state fresh from `unserialize`. -/
def umapReloaded : Umap.State :=
  { umapComputed with reloaded := some ([1], [2]), changed := false }

/-- A single-column gene table guessed as human Ensembl with confidence 1. -/
def tableWith (vals : List String) : Feat.GeneTable :=
  [("id", { values := vals, guess := { fam := .ensemblHuman, confidence := 1 } })]

def pfA : Preflight.PF := { genes := some [("RNA", tableWith ["a"])], annots := [] }

def pfB : Preflight.PF := { genes := some [("RNA", tableWith ["b"])], annots := [] }

def pfNoGenes : Preflight.PF := { genes := none, annots := [] }

/-- Two datasets sharing modality `RNA` with overlapping Ensembl
identifiers: dataset `A` has three genes, dataset `B` two of them. -/
def dsA : Feat.DS := { genes := [("RNA", some (tableWith ["g1", "g2", "g3"]))], modalities := ["RNA"] }

def dsB : Feat.DS := { genes := [("RNA", some (tableWith ["g3", "g1"]))], modalities := ["RNA"] }

def mergePair : List (String × Feat.DS) := [("A", dsA), ("B", dsB)]

def mergeTables : List (String × Feat.GeneTable) :=
  [("A", tableWith ["g1", "g2", "g3"]), ("B", tableWith ["g3", "g1"])]

/-- A dataset whose RNA gene table has no columns at all, so that no
feature family can be eligible. -/
def dsEmpty : Feat.DS := { genes := [("RNA", some [])], modalities := ["RNA"] }

/-- A store with two allocated arrays: ref 0 is a `values` array, ref 1 an
inner range, ref 2 the outer `ranges` array holding ref 1. -/
def store0 : FetchP.Store :=
  { heap := fun r =>
      if r = 0 then .strs ["x", "y"]
      else if r = 1 then .nums [1, 2]
      else if r = 2 then .refs [1]
      else .nums [],
    next := 3 }

def subset0 : FetchP.SubsetR := { field := "anno", values := some 0, ranges := some 2 }

def params0 : FetchP.InputsParamsR := { sampleFactor := some "sample", subset := some subset0 }

def sel0 : FetchP.Selections := [("first", 1)]

/-- The container written by serializing `qcComputed`. -/
def qcContainer : QC.Container :=
  { skip := some 0, useMitoDefault := 1, mitoPref := "mt-", nmads := 3,
    metrics := some qcMetrics,
    thresholds := some qcFilters.thresholds,
    discards := some qcFilters.discards }

/-- The container written by serializing `umapComputed`. -/
def umapContainer : Umap.Container :=
  { numNeighbors := 15, numEpochs := 500, minDist := 1, animate := 0,
    x := [1], y := [2] }

/-- A cell-filtering state whose discard buffer is a view on the RNA QC
state's buffer. -/
def cfViewState : CellFilt.State :=
  { discardBuffer := { data := [true, false], owner := some "RNA" } }

/-- Upstream QC states: only the RNA one is valid. -/
def qcViewsOne : List (String × CellFilt.QCView) :=
  [("RNA", { valid := true, changed := false, discards := [true, false] }),
   ("ADT", { valid := false, changed := false, discards := [] })]

/-- Upstream QC states that are both valid. -/
def qcViewsTwo : List (String × CellFilt.QCView) :=
  [("RNA", { valid := true, changed := false, discards := [true, false] }),
   ("ADT", { valid := true, changed := false, discards := [false, false] })]

end Fix

/-! ## Helper lemmas -/

/-- `CellFilteringState.compute` sets `changed` exactly when the inputs
changed or some valid upstream QC state changed. -/
theorem computeChanged_eq (b : Bool) (qcs : List (String × CellFilt.QCView)) :
    CellFilt.computeChanged b qcs = (b || qcs.any (fun q => q.2.valid && q.2.changed)) := by
  induction qcs generalizing b with
  | nil => simp [CellFilt.computeChanged]
  | cons q rest ih =>
      show CellFilt.computeChanged (if q.2.valid && q.2.changed then true else b) rest = _
      rw [ih]
      by_cases h : (q.2.valid && q.2.changed) = true
      · simp [h]
      · simp only [Bool.not_eq_true] at h
        simp [h]

/-- Evaluation of the feature-type matcher on two single-column tables
guessed as human Ensembl with confidence 1. -/
theorem commonFeatureTypes_tableWith (na nb : String) (a b : List String) :
    Feat.commonFeatureTypes [(na, Fix.tableWith a), (nb, Fix.tableWith b)]
      = { bestType := some Feat.Fam.ensemblHuman,
          bestFields := [(na, "id"), (nb, "id")] } := by
  have hb : ∀ v : List String, Feat.bestPerFamily (Fix.tableWith v)
      = Function.update (fun _ => none) Feat.Fam.ensemblHuman (some ((1 : ℚ), "id")) :=
    fun _ => rfl
  have hs : ∀ f, Feat.famScores [(na, Fix.tableWith a), (nb, Fix.tableWith b)] f
      = if f = Feat.Fam.ensemblHuman then [1, 1] else [] := by
    intro f
    by_cases hf : f = Feat.Fam.ensemblHuman <;>
      simp [Feat.famScores, hb, Function.update_apply, hf]
  have hfld : ∀ f, Feat.famFields [(na, Fix.tableWith a), (nb, Fix.tableWith b)] f
      = if f = Feat.Fam.ensemblHuman then ["id", "id"] else [] := by
    intro f
    by_cases hf : f = Feat.Fam.ensemblHuman <;>
      simp [Feat.famFields, hb, Function.update_apply, hf]
  have hstep : ∀ acc, Feat.cbtStep [(na, Fix.tableWith a), (nb, Fix.tableWith b)] acc
      Feat.Fam.ensemblHuman
      = (if (1 : ℚ) > acc.1 then ((1 : ℚ), some Feat.Fam.ensemblHuman) else acc) := by
    intro acc
    unfold Feat.cbtStep
    rw [hs]
    norm_num [Feat.jsReduceMul]
  have hskip : ∀ acc f, f ≠ Feat.Fam.ensemblHuman →
      Feat.cbtStep [(na, Fix.tableWith a), (nb, Fix.tableWith b)] acc f = acc := by
    intro acc f hf
    unfold Feat.cbtStep
    rw [hs]
    simp [hf]
  unfold Feat.commonFeatureTypes Feat.chooseBestType Feat.allFams
  rw [List.foldl_cons, List.foldl_cons, List.foldl_cons, List.foldl_cons, List.foldl_nil]
  rw [hskip _ Feat.Fam.symbolMouse (by decide)]
  rw [hskip _ Feat.Fam.symbolHuman (by decide)]
  rw [hskip _ Feat.Fam.ensemblMouse (by decide)]
  rw [hstep]
  norm_num [hfld]

/-- `bpfStep` leaves the entry of every other family unchanged. -/
theorem bpfStep_ne (best : Feat.Fam → Option (ℚ × String)) (kv : String × Feat.Column)
    (g : Feat.Fam) (hg : g ≠ kv.2.guess.fam) :
    Feat.bpfStep best kv g = best g := by
  unfold Feat.bpfStep
  cases hb : best kv.2.guess.fam with
  | none => simp [Function.update_apply, hg]
  | some bc =>
      by_cases hc : kv.2.guess.confidence > bc.1
      · simp [hc, Function.update_apply, hg]
      · simp [hc]

/-- `bpfStep` installs the column when its family had no entry yet. -/
theorem bpfStep_new (best : Feat.Fam → Option (ℚ × String)) (kv : String × Feat.Column)
    (hb : best kv.2.guess.fam = none) :
    Feat.bpfStep best kv kv.2.guess.fam = some (kv.2.guess.confidence, kv.1) := by
  unfold Feat.bpfStep
  simp [hb, Function.update_apply]

/-- `bpfStep` replaces the entry on strictly greater confidence. -/
theorem bpfStep_gt (best : Feat.Fam → Option (ℚ × String)) (kv : String × Feat.Column)
    (bc : ℚ × String) (hb : best kv.2.guess.fam = some bc)
    (hc : kv.2.guess.confidence > bc.1) :
    Feat.bpfStep best kv kv.2.guess.fam = some (kv.2.guess.confidence, kv.1) := by
  unfold Feat.bpfStep
  simp [hb, hc, Function.update_apply]

/-- `bpfStep` keeps the entry otherwise. -/
theorem bpfStep_le (best : Feat.Fam → Option (ℚ × String)) (kv : String × Feat.Column)
    (bc : ℚ × String) (hb : best kv.2.guess.fam = some bc)
    (hc : ¬kv.2.guess.confidence > bc.1) :
    Feat.bpfStep best kv kv.2.guess.fam = some bc := by
  unfold Feat.bpfStep
  simp [hb, hc]

/-- After one `bpfStep`, the entry of the column's family is a `some`
whose confidence is at least the column's and at least the previous
entry's. -/
theorem bpfStep_grows (best : Feat.Fam → Option (ℚ × String)) (kv : String × Feat.Column) :
    ∃ q, Feat.bpfStep best kv kv.2.guess.fam = some q
      ∧ kv.2.guess.confidence ≤ q.1
      ∧ (∀ bc, best kv.2.guess.fam = some bc → bc.1 ≤ q.1) := by
  cases hb : best kv.2.guess.fam with
  | none =>
      refine ⟨_, bpfStep_new best kv hb, le_refl _, fun bc hbc => ?_⟩
      cases hbc
  | some bc =>
      by_cases hc : kv.2.guess.confidence > bc.1
      · refine ⟨_, bpfStep_gt best kv bc hb hc, le_refl _, fun bc2 hbc2 => ?_⟩
        cases hbc2
        exact le_of_lt hc
      · refine ⟨bc, bpfStep_le best kv bc hb hc, le_of_not_gt hc, fun bc2 hbc2 => ?_⟩
        cases hbc2
        exact le_refl _

/-- Characterization of the per-dataset best-column fold: it is `none`
exactly when no column of the family was seen, and any produced pair is a
seen column of the family whose confidence bounds all seen columns of the
family (and only improves on the accumulator). -/
theorem bestPerFamily_go (cols : List (String × Feat.Column))
    (acc : Feat.Fam → Option (ℚ × String)) (f : Feat.Fam) :
    (cols.foldl Feat.bpfStep acc f = none ↔
        (acc f = none ∧ ∀ kv ∈ cols, kv.2.guess.fam ≠ f))
    ∧ (∀ p, cols.foldl Feat.bpfStep acc f = some p →
        (acc f = some p
          ∨ ∃ kv ∈ cols, kv.1 = p.2 ∧ kv.2.guess.fam = f ∧ kv.2.guess.confidence = p.1)
        ∧ (∀ kv ∈ cols, kv.2.guess.fam = f → kv.2.guess.confidence ≤ p.1)
        ∧ (∀ q, acc f = some q → q.1 ≤ p.1)) := by
  induction cols generalizing acc with
  | nil =>
      refine ⟨by simp, ?_⟩
      intro p hp
      simp only [List.foldl_nil] at hp
      refine ⟨Or.inl hp, by simp, ?_⟩
      intro q hq
      rw [hp] at hq
      cases hq
      exact le_refl _
  | cons kv rest ih =>
      rw [List.foldl_cons]
      obtain ⟨ih1, ih2⟩ := ih (Feat.bpfStep acc kv)
      by_cases hg : kv.2.guess.fam = f
      · subst hg
        obtain ⟨q0, hq0, hq0c, hq0m⟩ := bpfStep_grows acc kv
        constructor
        · rw [ih1, hq0]
          constructor
          · rintro ⟨h1, -⟩
            cases h1
          · rintro ⟨-, h2⟩
            exact absurd rfl (h2 kv (List.mem_cons_self kv rest))
        · intro p hp
          obtain ⟨hAB, hbound, hmono⟩ := ih2 p hp
          have hq0p : q0.1 ≤ p.1 := hmono q0 hq0
          refine ⟨?_, ?_, ?_⟩
          · rcases hAB with hA | hB
            · rw [hq0] at hA
              have hpq0 : p = q0 := by cases hA; rfl
              subst hpq0
              cases hb : acc kv.2.guess.fam with
              | none =>
                  have hnew := bpfStep_new acc kv hb
                  rw [hq0] at hnew
                  have : p = (kv.2.guess.confidence, kv.1) := by cases hnew; rfl
                  subst this
                  exact Or.inr ⟨kv, List.mem_cons_self kv rest, rfl, rfl, rfl⟩
              | some bc =>
                  by_cases hc : kv.2.guess.confidence > bc.1
                  · have hgt := bpfStep_gt acc kv bc hb hc
                    rw [hq0] at hgt
                    have : p = (kv.2.guess.confidence, kv.1) := by cases hgt; rfl
                    subst this
                    exact Or.inr ⟨kv, List.mem_cons_self kv rest, rfl, rfl, rfl⟩
                  · have hle := bpfStep_le acc kv bc hb hc
                    rw [hq0] at hle
                    have : p = bc := by cases hle; rfl
                    subst this
                    exact Or.inl rfl
            · obtain ⟨kv2, h1, h2, h3, h4⟩ := hB
              exact Or.inr ⟨kv2, List.mem_cons_of_mem kv h1, h2, h3, h4⟩
          · intro kv2 hkv2 hf
            rcases List.mem_cons.mp hkv2 with h | h
            · rw [h]
              exact le_trans hq0c hq0p
            · exact hbound kv2 h hf
          · intro q hq
            exact le_trans (hq0m q hq) hq0p
      · have hs : Feat.bpfStep acc kv f = acc f := bpfStep_ne acc kv f (fun hh => hg hh.symm)
        constructor
        · rw [ih1, hs]
          constructor
          · rintro ⟨h1, h2⟩
            refine ⟨h1, ?_⟩
            intro kv2 hkv2
            rcases List.mem_cons.mp hkv2 with h | h
            · rw [h]
              exact hg
            · exact h2 kv2 h
          · rintro ⟨h1, h2⟩
            exact ⟨h1, fun kv2 h => h2 kv2 (List.mem_cons_of_mem kv h)⟩
        · intro p hp
          obtain ⟨hAB, hbound, hmono⟩ := ih2 p hp
          refine ⟨?_, ?_, ?_⟩
          · rcases hAB with hA | hB
            · exact Or.inl (hs ▸ hA)
            · obtain ⟨kv2, h1, h2, h3, h4⟩ := hB
              exact Or.inr ⟨kv2, List.mem_cons_of_mem kv h1, h2, h3, h4⟩
          · intro kv2 hkv2 hf
            rcases List.mem_cons.mp hkv2 with h | h
            · exact absurd (h ▸ hf) hg
            · exact hbound kv2 h hf
          · intro q hq
            exact hmono q (hs ▸ hq)

/-- `bestPerFamily` is `none` exactly when the table has no column of the
family. -/
theorem bestPerFamily_none_iff (cols : Feat.GeneTable) (f : Feat.Fam) :
    Feat.bestPerFamily cols f = none ↔ ∀ kv ∈ cols, kv.2.guess.fam ≠ f := by
  unfold Feat.bestPerFamily
  rw [(bestPerFamily_go cols (fun _ => none) f).1]
  simp

/-- A produced representative is a column of the family with maximal
confidence among the family's columns. -/
theorem bestPerFamily_some_spec (cols : Feat.GeneTable) (f : Feat.Fam) (c : ℚ) (col : String)
    (h : Feat.bestPerFamily cols f = some (c, col)) :
    (∃ kv ∈ cols, kv.1 = col ∧ kv.2.guess.fam = f ∧ kv.2.guess.confidence = c)
    ∧ (∀ kv ∈ cols, kv.2.guess.fam = f → kv.2.guess.confidence ≤ c) := by
  obtain ⟨hA, hbound, -⟩ := (bestPerFamily_go cols (fun _ => none) f).2 (c, col) h
  rcases hA with hA | hA
  · simp at hA
  · exact ⟨hA, hbound⟩

/-- The length of a `filterMap` equals the input length exactly when the
function succeeds everywhere. -/
theorem length_filterMap_eq_iff {α β : Type} (g : α → Option β) (l : List α) :
    (l.filterMap g).length = l.length ↔ ∀ a ∈ l, (g a).isSome := by
  induction l with
  | nil => simp
  | cons a t ih =>
      cases hg : g a with
      | none =>
          simp only [List.filterMap_cons, hg, List.length_cons]
          constructor
          · intro h
            have := List.length_filterMap_le g t
            omega
          · intro h
            have := h a (List.mem_cons_self a t)
            simp [hg] at this
      | some b =>
          simp only [List.filterMap_cons, hg, List.length_cons]
          constructor
          · intro h x hx
            rcases List.mem_cons.mp hx with hx | hx
            · subst hx
              simp [hg]
            · exact (ih.mp (by omega)) x hx
          · intro h
            have := ih.mpr (fun x hx => h x (List.mem_cons_of_mem a hx))
            omega

/-- Folding multiplication from an initial element is the product. -/
theorem foldl_mul_eq (x : ℚ) (t : List ℚ) : t.foldl (· * ·) x = x * t.prod := by
  induction t generalizing x with
  | nil => simp
  | cons a t ih => rw [List.foldl_cons, ih (x * a), List.prod_cons, mul_assoc]

/-- JS `reduce((a, b) => a * b)` on a nonempty array is the product. -/
theorem jsReduceMul_eq_prod (lst : List ℚ) (h : lst ≠ []) :
    Feat.jsReduceMul lst = some lst.prod := by
  cases lst with
  | nil => exact absurd rfl h
  | cons x t =>
      show some (t.foldl (· * ·) x) = some (x :: t).prod
      rw [foldl_mul_eq, List.prod_cons]

/-- Every family is in the iteration order of the selection loop. -/
theorem mem_allFams (f : Feat.Fam) : f ∈ Feat.allFams := by
  cases f <;> simp [Feat.allFams]

/-- Case analysis of one step of the selection loop. -/
theorem cbtStep_cases (ds : List (String × Feat.GeneTable)) (hne : ds ≠ [])
    (acc : ℚ × Option Feat.Fam) (f : Feat.Fam) :
    (¬Feat.eligible ds f → Feat.cbtStep ds acc f = acc)
    ∧ (Feat.eligible ds f →
        Feat.cbtStep ds acc f =
          (if (Feat.famScores ds f).prod > acc.1
           then ((Feat.famScores ds f).prod, some f) else acc)) := by
  constructor
  · intro h
    simp only [Feat.cbtStep]
    rw [if_neg (show ¬(Feat.famScores ds f).length = ds.length from h)]
  · intro h
    have hnonempty : Feat.famScores ds f ≠ [] := by
      intro hempty
      have h2 : (Feat.famScores ds f).length = ds.length := h
      rw [hempty] at h2
      simp at h2
      exact hne (List.length_eq_zero.mp h2.symm)
    simp only [Feat.cbtStep]
    rw [if_pos (show (Feat.famScores ds f).length = ds.length from h),
      jsReduceMul_eq_prod _ hnonempty]

/-- The selection fold only increases the best score, lands on an eligible
family achieving that score (unless it never moved), and dominates every
eligible family it visited. -/
theorem cbt_go (ds : List (String × Feat.GeneTable)) (hne : ds ≠ [])
    (l : List Feat.Fam) (acc : ℚ × Option Feat.Fam) :
    acc.1 ≤ (l.foldl (Feat.cbtStep ds) acc).1
    ∧ (l.foldl (Feat.cbtStep ds) acc = acc
        ∨ ∃ f ∈ l, (l.foldl (Feat.cbtStep ds) acc).2 = some f ∧ Feat.eligible ds f
            ∧ (Feat.famScores ds f).prod = (l.foldl (Feat.cbtStep ds) acc).1)
    ∧ (∀ g ∈ l, Feat.eligible ds g →
        (Feat.famScores ds g).prod ≤ (l.foldl (Feat.cbtStep ds) acc).1) := by
  induction l generalizing acc with
  | nil => simp
  | cons f rest ih =>
      rw [List.foldl_cons]
      obtain ⟨ih1, ih2, ih3⟩ := ih (Feat.cbtStep ds acc f)
      have hstep1 : acc.1 ≤ (Feat.cbtStep ds acc f).1 := by
        by_cases h : Feat.eligible ds f
        · rw [(cbtStep_cases ds hne acc f).2 h]
          split_ifs with hgt
          · exact le_of_lt hgt
          · exact le_refl _
        · rw [(cbtStep_cases ds hne acc f).1 h]
      have hstepor : Feat.cbtStep ds acc f = acc
          ∨ ((Feat.cbtStep ds acc f).2 = some f ∧ Feat.eligible ds f
              ∧ (Feat.famScores ds f).prod = (Feat.cbtStep ds acc f).1) := by
        by_cases h : Feat.eligible ds f
        · rw [(cbtStep_cases ds hne acc f).2 h]
          split_ifs with hgt
          · exact Or.inr ⟨rfl, h, rfl⟩
          · exact Or.inl rfl
        · exact Or.inl ((cbtStep_cases ds hne acc f).1 h)
      have hstepf : Feat.eligible ds f →
          (Feat.famScores ds f).prod ≤ (Feat.cbtStep ds acc f).1 := by
        intro h
        rw [(cbtStep_cases ds hne acc f).2 h]
        split_ifs with hgt
        · exact le_refl _
        · exact le_of_not_gt hgt
      refine ⟨le_trans hstep1 ih1, ?_, ?_⟩
      · rcases ih2 with h2 | ⟨f', hf', h2, h3, h4⟩
        · rcases hstepor with h1 | ⟨h1a, h1b, h1c⟩
          · exact Or.inl (h2.trans h1)
          · exact Or.inr ⟨f, List.mem_cons_self f rest,
              by rw [h2, h1a], h1b, by rw [h2, h1c]⟩
        · exact Or.inr ⟨f', List.mem_cons_of_mem f hf', h2, h3, h4⟩
      · intro g hg helig
        rcases List.mem_cons.mp hg with h | h
        · subst h
          exact le_trans (hstepf helig) ih1
        · exact ih3 g h helig

/-- `bestPerFamily` succeeds exactly when the table has a column of the
family. -/
theorem bestPerFamily_isSome_iff (cols : Feat.GeneTable) (f : Feat.Fam) :
    (Feat.bestPerFamily cols f).isSome = true ↔ ∃ kv ∈ cols, kv.2.guess.fam = f := by
  rw [Option.isSome_iff_ne_none, ne_eq, bestPerFamily_none_iff]
  push_neg
  simp

/-- A family is eligible exactly when every dataset has a column of the
family (hence a representative). -/
theorem eligible_iff (ds : List (String × Feat.GeneTable)) (f : Feat.Fam) :
    Feat.eligible ds f ↔ ∀ d ∈ ds, ∃ kv ∈ d.2, kv.2.guess.fam = f := by
  unfold Feat.eligible Feat.famScores
  rw [length_filterMap_eq_iff]
  constructor
  · intro h d hd
    have h2 := h d hd
    rw [Option.isSome_map'] at h2
    exact (bestPerFamily_isSome_iff d.2 f).mp h2
  · intro h d hd
    rw [Option.isSome_map']
    exact (bestPerFamily_isSome_iff d.2 f).mpr (h d hd)

/-- Every entry of `famScores` is the confidence of some column of the
family in some dataset. -/
theorem famScores_mem (ds : List (String × Feat.GeneTable)) (f : Feat.Fam) (c : ℚ)
    (hc : c ∈ Feat.famScores ds f) :
    ∃ d ∈ ds, ∃ kv ∈ d.2, kv.2.guess.fam = f ∧ kv.2.guess.confidence = c := by
  unfold Feat.famScores at hc
  rw [List.mem_filterMap] at hc
  obtain ⟨d, hd, hmap⟩ := hc
  cases hb : Feat.bestPerFamily d.2 f with
  | none =>
      rw [hb] at hmap
      cases hmap
  | some p =>
      rw [hb] at hmap
      simp only [Option.map_some', Option.some.injEq] at hmap
      obtain ⟨⟨kv, hkv, -, hfam, hconf⟩, -⟩ :=
        bestPerFamily_some_spec d.2 f p.1 p.2 (by rw [hb])
      exact ⟨d, hd, kv, hkv, hfam, by rw [hconf, hmap]⟩

/-- Filtering an enumeration by a predicate on the values and projecting
back is filtering the values. -/
theorem enumFrom_filter_map_snd {α : Type} (p : α → Bool) (l : List α) :
    ∀ n, ((List.enumFrom n l).filter (fun e => p e.2)).map (fun e => e.2) = l.filter p := by
  induction l with
  | nil => intro n; rfl
  | cons a t ih =>
      intro n
      show ((((n, a) :: List.enumFrom (n + 1) t).filter (fun e => p e.2)).map (fun e => e.2))
        = (a :: t).filter p
      by_cases hp : p a
      · simp [List.filter_cons, hp, ih]
      · simp [List.filter_cons, hp, ih]

/-- Evaluation of `cbindWithNames` on a nonempty list of join-key
vectors. -/
theorem cbindWithNames_cons (g0 : List String) (grest : List (List String)) :
    Feat.cbindWithNames (g0 :: grest) =
      { names := g0.filter (fun n => grest.all (fun g => decide (n ∈ g))),
        indices := (g0.enum.filter
          (fun e => grest.all (fun g => decide (e.2 ∈ g)))).map (fun e => e.1) } := by
  unfold Feat.cbindWithNames
  have : ((g0.enum.filter (fun e => grest.all (fun g => decide (e.2 ∈ g)))).map (fun e => e.2))
      = g0.filter (fun n => grest.all (fun g => decide (n ∈ g))) := by
    show ((List.enumFrom 0 g0).filter _).map _ = _
    exact enumFrom_filter_map_snd (fun n => grest.all (fun g => decide (n ∈ g))) g0 0
  rw [← this]

/-- `all` over a mapped list tests the composite predicate (general
version; the library lemma fixes the map to an endofunction). -/
theorem all_map_general {α β : Type} (l : List α) (g : α → β) (p : β → Bool) :
    (l.map g).all p = l.all (fun a => p (g a)) := by
  induction l with
  | nil => rfl
  | cons a t ih => simp [List.all_cons, ih]

/-- Allocation leaves every previously-allocated cell unchanged. -/
theorem alloc_heap_lt (st : FetchP.Store) (v : FetchP.HVal) (r : ℕ)
    (h : r < st.next) : (FetchP.alloc st v).2.heap r = st.heap r := by
  simp only [FetchP.alloc, Function.update_apply]
  rw [if_neg (show ¬ r = st.next by omega)]

/-- Allocation stores the value at the fresh reference. -/
theorem alloc_heap_at (st : FetchP.Store) (v : FetchP.HVal) :
    (FetchP.alloc st v).2.heap st.next = v := by
  simp [FetchP.alloc, Function.update_apply]

/-- Cloning a list of inner arrays: the fresh copies are new references
holding the original contents, and nothing below the starting allocation
frontier is touched. -/
theorem cloneStep_go (h0 : FetchP.Ref → FetchP.HVal) (base : ℕ) :
    ∀ (inner : List FetchP.Ref), (∀ r ∈ inner, r < base) →
    ∀ (acc : List FetchP.Ref × FetchP.Store), base ≤ acc.2.next →
      (∀ r, r < base → acc.2.heap r = h0 r) →
      acc.2.next ≤ (inner.foldl FetchP.cloneStep acc).2.next
      ∧ (∀ r, r < acc.2.next →
          (inner.foldl FetchP.cloneStep acc).2.heap r = acc.2.heap r)
      ∧ (∃ fresh, (inner.foldl FetchP.cloneStep acc).1 = acc.1 ++ fresh
          ∧ (∀ x ∈ fresh, acc.2.next ≤ x ∧ x < (inner.foldl FetchP.cloneStep acc).2.next)
          ∧ fresh.map (inner.foldl FetchP.cloneStep acc).2.heap = inner.map h0) := by
  intro inner
  induction inner with
  | nil =>
      intro hin acc hb hp
      exact ⟨le_refl _, fun r _ => rfl, ⟨[], by simp, by simp, rfl⟩⟩
  | cons ri rest ih =>
      intro hin acc hb hp
      rw [List.foldl_cons]
      have hri : ri < base := hin ri (List.mem_cons_self ri rest)
      have hrest : ∀ r ∈ rest, r < base := fun r hr => hin r (List.mem_cons_of_mem ri hr)
      have hnext' : (FetchP.cloneStep acc ri).2.next = acc.2.next + 1 := rfl
      have hheaplt : ∀ r, r < acc.2.next →
          (FetchP.cloneStep acc ri).2.heap r = acc.2.heap r := by
        intro r hr
        exact alloc_heap_lt acc.2 _ r hr
      have hheapat : (FetchP.cloneStep acc ri).2.heap acc.2.next = acc.2.heap ri :=
        alloc_heap_at acc.2 _
      have hlist : (FetchP.cloneStep acc ri).1 = acc.1 ++ [acc.2.next] := rfl
      have hp2 : ∀ r, r < base → (FetchP.cloneStep acc ri).2.heap r = h0 r := by
        intro r hr
        rw [hheaplt r (lt_of_lt_of_le hr hb)]
        exact hp r hr
      obtain ⟨ih1, ih2, fresh, ihf1, ihf2, ihf3⟩ := ih hrest (FetchP.cloneStep acc ri)
        (by rw [hnext']; omega) hp2
      refine ⟨?_, ?_, ⟨acc.2.next :: fresh, ?_, ?_, ?_⟩⟩
      · calc acc.2.next ≤ acc.2.next + 1 := by omega
          _ = (FetchP.cloneStep acc ri).2.next := hnext'.symm
          _ ≤ _ := ih1
      · intro r hr
        rw [ih2 r (by rw [hnext']; omega), hheaplt r hr]
      · rw [ihf1, hlist]
        simp
      · intro x hx
        rcases List.mem_cons.mp hx with hx | hx
        · subst hx
          refine ⟨le_refl _, ?_⟩
          calc acc.2.next < (FetchP.cloneStep acc ri).2.next := by rw [hnext']; omega
            _ ≤ _ := ih1
        · obtain ⟨h1, h2⟩ := ihf2 x hx
          rw [hnext'] at h1
          exact ⟨Nat.le_of_succ_le h1, h2⟩
      · rw [List.map_cons, List.map_cons, ihf3]
        congr 1
        rw [ih2 acc.2.next (by rw [hnext']; omega), hheapat]
        exact hp ri hri

/-- Reading a subset parameter only depends on the heap at its reachable
references. -/
theorem readSubset_congr (h h2 : FetchP.Ref → FetchP.HVal) (s : Option FetchP.SubsetR)
    (hagree : ∀ r ∈ FetchP.subsetRefs h s, h2 r = h r) :
    FetchP.readSubset h2 s = FetchP.readSubset h s := by
  cases s with
  | none => rfl
  | some sub =>
      have hvals : sub.values.map h2 = sub.values.map h := by
        cases hv : sub.values with
        | none => rfl
        | some rv =>
            have : rv ∈ FetchP.subsetRefs h (some sub) := by
              simp [FetchP.subsetRefs, hv]
            rw [Option.map_some', Option.map_some', hagree rv this]
      unfold FetchP.readSubset
      cases hr : sub.ranges with
      | none => simp [hvals, hr]
      | some rr =>
          have hrr : rr ∈ FetchP.subsetRefs h (some sub) := by
            simp [FetchP.subsetRefs, hr]
          have hrw : h2 rr = h rr := hagree rr hrr
          cases hcell : h rr with
          | refs l =>
              have hl : ∀ x ∈ l, h2 x = h x := by
                intro x hx
                apply hagree
                simp [FetchP.subsetRefs, hr, hcell]
                right
                right
                exact hx
              simp only [hvals, hr, Option.map_some', hrw, hcell]
              congr 2
              exact congrArg some (List.map_congr_left hl)
          | nums l => simp [hvals, hr, hrw, hcell]
          | strs l => simp [hvals, hr, hrw, hcell]

/-- Full specification of `#cloneSubset`: the allocation frontier only
grows, old cells are untouched, every reference reachable from the clone
is fresh, and the clone reads back to the same value as the original. -/
theorem cloneSubset_spec (st : FetchP.Store) (s : Option FetchP.SubsetR)
    (hwf : ∀ r ∈ FetchP.subsetRefs st.heap s, r < st.next)
    (hshape : ∀ sub rr, s = some sub → sub.ranges = some rr →
        ∃ l, st.heap rr = FetchP.HVal.refs l) :
    st.next ≤ (FetchP.cloneSubset st s).2.next
    ∧ (∀ r, r < st.next → (FetchP.cloneSubset st s).2.heap r = st.heap r)
    ∧ (∀ r ∈ FetchP.subsetRefs (FetchP.cloneSubset st s).2.heap (FetchP.cloneSubset st s).1,
        st.next ≤ r ∧ r < (FetchP.cloneSubset st s).2.next)
    ∧ FetchP.readSubset (FetchP.cloneSubset st s).2.heap (FetchP.cloneSubset st s).1
        = FetchP.readSubset st.heap s := by
  cases s with
  | none =>
      exact ⟨le_refl _, fun r _ => rfl, by simp [FetchP.cloneSubset, FetchP.subsetRefs], rfl⟩
  | some sub =>
      obtain ⟨fieldS, valuesS, rangesS⟩ := sub
      cases valuesS with
      | none =>
          cases rangesS with
          | none =>
              refine ⟨le_refl _, fun r _ => rfl, ?_, rfl⟩
              simp [FetchP.cloneSubset, FetchP.subsetRefs]
          | some rr =>
              obtain ⟨l, hl⟩ := hshape ⟨fieldS, none, some rr⟩ rr rfl rfl
              have hrr : rr < st.next := hwf rr (by simp [FetchP.subsetRefs])
              have hlmem : ∀ x ∈ l, x < st.next := by
                intro x hx
                apply hwf
                simp [FetchP.subsetRefs, hl]
                right
                exact hx
              have hclone : FetchP.cloneSubset st (some ⟨fieldS, none, some rr⟩)
                  = (some ⟨fieldS, none,
                      some (l.foldl FetchP.cloneStep ([], st)).2.next⟩,
                     (FetchP.alloc (l.foldl FetchP.cloneStep ([], st)).2
                       (FetchP.HVal.refs (l.foldl FetchP.cloneStep ([], st)).1)).2) := by
                simp only [FetchP.cloneSubset, hl]
                rfl
              obtain ⟨g1, g2, fresh, gf1, gf2, gf3⟩ :=
                cloneStep_go st.heap st.next l hlmem ([], st) (le_refl _) (fun _ _ => rfl)
              simp only [List.nil_append] at gf1
              have g1n : st.next ≤ (l.foldl FetchP.cloneStep ([], st)).2.next := g1
              have g2n : ∀ r : ℕ, r < st.next →
                  (l.foldl FetchP.cloneStep ([], st)).2.heap r = st.heap r := g2
              have gf2n : ∀ x ∈ fresh,
                  st.next ≤ x ∧ x < (l.foldl FetchP.cloneStep ([], st)).2.next := gf2
              have gf3n : fresh.map (l.foldl FetchP.cloneStep ([], st)).2.heap
                  = l.map st.heap := gf3
              set stc := (l.foldl FetchP.cloneStep ([], st)).2 with hstc
              have hfinalheap : ∀ r : ℕ, r < stc.next →
                  (FetchP.alloc stc (FetchP.HVal.refs (l.foldl FetchP.cloneStep ([], st)).1)).2.heap r
                    = stc.heap r := by
                intro r hr
                exact alloc_heap_lt stc _ r hr
              have houterheap :
                  (FetchP.alloc stc (FetchP.HVal.refs (l.foldl FetchP.cloneStep ([], st)).1)).2.heap
                    stc.next = FetchP.HVal.refs fresh := by
                rw [alloc_heap_at, gf1]
              have hrefs : FetchP.subsetRefs
                  (FetchP.alloc stc (FetchP.HVal.refs (l.foldl FetchP.cloneStep ([], st)).1)).2.heap
                  (some ⟨fieldS, none, some stc.next⟩) = stc.next :: fresh := by
                simp only [FetchP.subsetRefs, houterheap, Option.toList_none, List.nil_append]
              rw [hclone]
              refine ⟨?_, ?_, ?_, ?_⟩
              · show st.next ≤ stc.next + 1
                omega
              · intro r hr
                show (FetchP.alloc stc _).2.heap r = st.heap r
                rw [hfinalheap r (by omega)]
                exact g2n r hr
              · intro r hr
                rw [hrefs] at hr
                rcases List.mem_cons.mp hr with hr | hr
                · subst hr
                  exact ⟨g1n, Nat.lt_succ_self _⟩
                · obtain ⟨h1, h2⟩ := gf2n r hr
                  exact ⟨h1, Nat.lt_succ_of_lt h2⟩
              · show FetchP.readSubset _ (some ⟨fieldS, none, some stc.next⟩)
                  = FetchP.readSubset st.heap (some ⟨fieldS, none, some rr⟩)
                have hmapeq : fresh.map
                    (FetchP.alloc stc (FetchP.HVal.refs (l.foldl FetchP.cloneStep ([], st)).1)).2.heap
                    = fresh.map stc.heap :=
                  List.map_congr_left (fun x hx => hfinalheap x (gf2n x hx).2)
                unfold FetchP.readSubset
                simp only [Option.map_none', Option.map_some', houterheap, hl]
                rw [hmapeq, gf3n]
      | some rv =>
          have hrv : rv < st.next := hwf rv (by simp [FetchP.subsetRefs])
          cases rangesS with
          | none =>
              have hclone : FetchP.cloneSubset st (some ⟨fieldS, some rv, none⟩)
                  = (some ⟨fieldS, some st.next, none⟩, (FetchP.alloc st (st.heap rv)).2) := rfl
              rw [hclone]
              refine ⟨by show st.next ≤ st.next + 1; omega, ?_, ?_, ?_⟩
              · intro r hr
                exact alloc_heap_lt st _ r hr
              · intro r hr
                simp only [FetchP.subsetRefs, Option.toList_some] at hr
                simp at hr
                subst hr
                exact ⟨le_refl _, by show st.next < st.next + 1; omega⟩
              · unfold FetchP.readSubset
                simp only [Option.map_some', Option.map_none']
                rw [alloc_heap_at]
          | some rr =>
              obtain ⟨l, hl⟩ := hshape ⟨fieldS, some rv, some rr⟩ rr rfl rfl
              have hrr : rr < st.next := hwf rr (by simp [FetchP.subsetRefs])
              have hlmem : ∀ x ∈ l, x < st.next := by
                intro x hx
                apply hwf
                simp [FetchP.subsetRefs, hl]
                right
                right
                exact hx
              set stv := (FetchP.alloc st (st.heap rv)).2 with hstv
              have hstvnext : stv.next = st.next + 1 := rfl
              have hstvlt : ∀ r, r < st.next → stv.heap r = st.heap r := by
                intro r hr
                exact alloc_heap_lt st _ r hr
              have hstvat : stv.heap st.next = st.heap rv := alloc_heap_at st _
              have hstvrr : stv.heap rr = FetchP.HVal.refs l := by
                rw [hstvlt rr hrr, hl]
              have hclone : FetchP.cloneSubset st (some ⟨fieldS, some rv, some rr⟩)
                  = (some ⟨fieldS, some st.next,
                      some (l.foldl FetchP.cloneStep ([], stv)).2.next⟩,
                     (FetchP.alloc (l.foldl FetchP.cloneStep ([], stv)).2
                       (FetchP.HVal.refs (l.foldl FetchP.cloneStep ([], stv)).1)).2) := by
                simp only [FetchP.cloneSubset, ← hstv, hstvrr]
                rfl
              obtain ⟨g1, g2, fresh, gf1, gf2, gf3⟩ :=
                cloneStep_go st.heap st.next l hlmem ([], stv)
                  (Nat.le_succ st.next)
                  (fun r hr => hstvlt r hr)
              simp only [List.nil_append] at gf1
              have g1n : st.next + 1 ≤ (l.foldl FetchP.cloneStep ([], stv)).2.next := g1
              have g2n : ∀ r : ℕ, r < st.next + 1 →
                  (l.foldl FetchP.cloneStep ([], stv)).2.heap r = stv.heap r := g2
              have gf2n : ∀ x ∈ fresh,
                  st.next + 1 ≤ x ∧ x < (l.foldl FetchP.cloneStep ([], stv)).2.next := gf2
              have gf3n : fresh.map (l.foldl FetchP.cloneStep ([], stv)).2.heap
                  = l.map st.heap := gf3
              set stc := (l.foldl FetchP.cloneStep ([], stv)).2 with hstc
              have hfinalheap : ∀ r : ℕ, r < stc.next →
                  (FetchP.alloc stc (FetchP.HVal.refs (l.foldl FetchP.cloneStep ([], stv)).1)).2.heap
                    r = stc.heap r := by
                intro r hr
                exact alloc_heap_lt stc _ r hr
              have houterheap :
                  (FetchP.alloc stc (FetchP.HVal.refs (l.foldl FetchP.cloneStep ([], stv)).1)).2.heap
                    stc.next = FetchP.HVal.refs fresh := by
                rw [alloc_heap_at, gf1]
              have hcopyval :
                  (FetchP.alloc stc (FetchP.HVal.refs (l.foldl FetchP.cloneStep ([], stv)).1)).2.heap
                    st.next = st.heap rv := by
                rw [hfinalheap st.next (by omega), g2n st.next (by omega), hstvat]
              have hrefs : FetchP.subsetRefs
                  (FetchP.alloc stc (FetchP.HVal.refs (l.foldl FetchP.cloneStep ([], stv)).1)).2.heap
                  (some ⟨fieldS, some st.next, some stc.next⟩)
                    = st.next :: stc.next :: fresh := by
                simp only [FetchP.subsetRefs, houterheap, Option.toList_some, List.singleton_append]
              rw [hclone]
              refine ⟨?_, ?_, ?_, ?_⟩
              · show st.next ≤ stc.next + 1
                omega
              · intro r hr
                show (FetchP.alloc stc _).2.heap r = st.heap r
                rw [hfinalheap r (by omega), g2n r (by omega)]
                exact hstvlt r hr
              · intro r hr
                rw [hrefs] at hr
                rcases List.mem_cons.mp hr with hr | hr
                · subst hr
                  exact ⟨le_refl _, show st.next < stc.next + 1 by omega⟩
                · rcases List.mem_cons.mp hr with hr | hr
                  · subst hr
                    exact ⟨Nat.le_of_succ_le g1n, Nat.lt_succ_self _⟩
                  · obtain ⟨h1, h2⟩ := gf2n r hr
                    exact ⟨Nat.le_of_succ_le h1, Nat.lt_succ_of_lt h2⟩
              · show FetchP.readSubset _ (some ⟨fieldS, some st.next, some stc.next⟩)
                  = FetchP.readSubset st.heap (some ⟨fieldS, some rv, some rr⟩)
                have hmapeq : fresh.map
                    (FetchP.alloc stc (FetchP.HVal.refs (l.foldl FetchP.cloneStep ([], stv)).1)).2.heap
                    = fresh.map stc.heap :=
                  List.map_congr_left (fun x hx => hfinalheap x (gf2n x hx).2)
                unfold FetchP.readSubset
                simp only [Option.map_some', houterheap, hl, hcopyval]
                rw [hmapeq, gf3n]

/-- Copying a selections object entry by entry: the fresh entries keep the
names, hold copies of the original arrays at new references, and nothing
below the starting allocation frontier is touched. -/
theorem selStep_go (h0 : FetchP.Ref → FetchP.HVal) (base : ℕ) :
    ∀ (sel : FetchP.Selections), (∀ kv ∈ sel, kv.2 < base) →
    ∀ (acc : FetchP.Selections × FetchP.Store), base ≤ acc.2.next →
      (∀ r : ℕ, r < base → acc.2.heap r = h0 r) →
      acc.2.next ≤ (sel.foldl FetchP.selStep acc).2.next
      ∧ (∀ r : ℕ, r < acc.2.next →
          (sel.foldl FetchP.selStep acc).2.heap r = acc.2.heap r)
      ∧ (∃ fresh, (sel.foldl FetchP.selStep acc).1 = acc.1 ++ fresh
          ∧ (∀ kv ∈ fresh, acc.2.next ≤ kv.2 ∧ kv.2 < (sel.foldl FetchP.selStep acc).2.next)
          ∧ fresh.map (fun kv => (kv.1, (sel.foldl FetchP.selStep acc).2.heap kv.2))
              = sel.map (fun kv => (kv.1, h0 kv.2))) := by
  intro sel
  induction sel with
  | nil =>
      intro hin acc hb hp
      exact ⟨le_refl _, fun r _ => rfl, ⟨[], by simp, by simp, rfl⟩⟩
  | cons kv rest ih =>
      intro hin acc hb hp
      rw [List.foldl_cons]
      have hkv : kv.2 < base := hin kv (List.mem_cons_self kv rest)
      have hrest : ∀ e ∈ rest, e.2 < base := fun e he => hin e (List.mem_cons_of_mem kv he)
      have hnext' : (FetchP.selStep acc kv).2.next = acc.2.next + 1 := rfl
      have hheaplt : ∀ r : ℕ, r < acc.2.next →
          (FetchP.selStep acc kv).2.heap r = acc.2.heap r := by
        intro r hr
        exact alloc_heap_lt acc.2 _ r hr
      have hheapat : (FetchP.selStep acc kv).2.heap acc.2.next = acc.2.heap kv.2 :=
        alloc_heap_at acc.2 _
      have hlist : (FetchP.selStep acc kv).1 = acc.1 ++ [(kv.1, acc.2.next)] := rfl
      have hp2 : ∀ r : ℕ, r < base → (FetchP.selStep acc kv).2.heap r = h0 r := by
        intro r hr
        rw [hheaplt r (lt_of_lt_of_le hr hb)]
        exact hp r hr
      obtain ⟨ih1, ih2, fresh, ihf1, ihf2, ihf3⟩ := ih hrest (FetchP.selStep acc kv)
        (by rw [hnext']; omega) hp2
      refine ⟨?_, ?_, ⟨(kv.1, acc.2.next) :: fresh, ?_, ?_, ?_⟩⟩
      · calc acc.2.next ≤ acc.2.next + 1 := by omega
          _ = (FetchP.selStep acc kv).2.next := hnext'.symm
          _ ≤ _ := ih1
      · intro r hr
        rw [ih2 r (by rw [hnext']; omega), hheaplt r hr]
      · rw [ihf1, hlist]
        simp
      · intro e he
        rcases List.mem_cons.mp he with he | he
        · subst he
          refine ⟨le_refl _, ?_⟩
          calc acc.2.next < (FetchP.selStep acc kv).2.next := by rw [hnext']; omega
            _ ≤ _ := ih1
        · obtain ⟨h1, h2⟩ := ihf2 e he
          rw [hnext'] at h1
          exact ⟨Nat.le_of_succ_le h1, h2⟩
      · rw [List.map_cons, List.map_cons, ihf3]
        congr 1
        rw [ih2 acc.2.next (by rw [hnext']; omega), hheapat]
        rw [hp kv.2 hkv]

/-- Reading a selections object only depends on the heap at its reachable
references. -/
theorem readSelections_congr (h h2 : FetchP.Ref → FetchP.HVal) (sel : FetchP.Selections)
    (hagree : ∀ r ∈ FetchP.selRefs sel, h2 r = h r) :
    FetchP.readSelections h2 sel = FetchP.readSelections h sel := by
  unfold FetchP.readSelections
  apply List.map_congr_left
  intro kv hkv
  rw [hagree kv.2 (List.mem_map_of_mem _ hkv)]

/-- Full specification of `fetchSelections`: the allocation frontier only
grows, old cells are untouched, every reference held by the returned
object is fresh, and the copy reads back to the same name-value pairs as
the stored selections. -/
theorem fetchSelections_spec (st : FetchP.Store) (sel : FetchP.Selections)
    (hwf : FetchP.wfSelections st sel) :
    st.next ≤ (FetchP.fetchSelections st sel).2.next
    ∧ (∀ r : ℕ, r < st.next → (FetchP.fetchSelections st sel).2.heap r = st.heap r)
    ∧ (∀ r ∈ FetchP.selRefs (FetchP.fetchSelections st sel).1,
        st.next ≤ r ∧ r < (FetchP.fetchSelections st sel).2.next)
    ∧ FetchP.readSelections (FetchP.fetchSelections st sel).2.heap
        (FetchP.fetchSelections st sel).1
      = FetchP.readSelections st.heap sel := by
  have hin : ∀ kv ∈ sel, kv.2 < st.next := by
    intro kv hkv
    exact hwf kv.2 (List.mem_map_of_mem _ hkv)
  obtain ⟨g1, g2, fresh, gf1, gf2, gf3⟩ :=
    selStep_go st.heap st.next sel hin ([], st) (le_refl _) (fun _ _ => rfl)
  simp only [List.nil_append] at gf1
  have g1n : st.next ≤ (sel.foldl FetchP.selStep ([], st)).2.next := g1
  have gf2n : ∀ kv ∈ fresh,
      st.next ≤ kv.2 ∧ kv.2 < (sel.foldl FetchP.selStep ([], st)).2.next := gf2
  refine ⟨g1n, fun r hr => g2 r hr, ?_, ?_⟩
  · intro r hr
    have : r ∈ FetchP.selRefs fresh := by
      show r ∈ List.map _ fresh
      have hfs : (FetchP.fetchSelections st sel).1 = fresh := gf1
      rw [← hfs]
      exact hr
    obtain ⟨kv, hkv, hkv2⟩ := List.mem_map.mp this
    subst hkv2
    exact gf2n kv hkv
  · show FetchP.readSelections (sel.foldl FetchP.selStep ([], st)).2.heap
        (sel.foldl FetchP.selStep ([], st)).1 = _
    unfold FetchP.readSelections
    rw [gf1, gf3]

/-! ## Claims -/

/-- C1: counterexample.  The upstream inputs step has just recomputed with
`changed = true`, and the quality-control step — configured as skipped, and
called again with parameters identical to its stored snapshot
(`skip = true`, `use_mito_default = true`, `mito_prefix = "mt-"`,
`nmads = 3`) — ends the call with `changed = false`, not `true`: the claim
fails for a skipped step. -/
theorem C1_counterexample :
    Fix.inputsBusy.changed = true ∧
    Fix.qcSkipped.params =
      { skip := some true, useMitoDefault := some true,
        mitoPref := some "mt-", nmads := some 3 } ∧
    (QC.compute Fix.qcEnv Fix.inputsBusy Fix.qcSkipped true true "mt-" 3).1.changed = false := by
  refine ⟨rfl, rfl, ?_⟩
  decide

/-- C1 (amended): if a required upstream step's `compute` set
`changed = true`, the next `compute` of a downstream step sets its
`changed = true` even with identical own parameters — except when the
downstream step is skippable, was already configured as skipped, and is
again called with `skip = true`, in which case its `changed` is forced to
`false`.  Parts: (1) `CellFilteringState` propagates an inputs change
unconditionally; (2) it propagates a change of any valid QC state;
(3) `QualityControlState` propagates an inputs change whenever it is not in
the stays-skipped case; (4) in the stays-skipped case it reports
`changed = false`. -/
theorem C1_change_propagation_amended
    (inputsChanged : Bool) (qcs : List (String × CellFilt.QCView))
    (env : QC.Env) (inputs : QC.InputsView) (s : QC.State)
    (skip useMitoDefault : Bool) (mitoPref : String) (nmads : ℚ) :
    (inputsChanged = true → CellFilt.computeChanged inputsChanged qcs = true)
    ∧ (∀ q ∈ qcs, q.2.valid = true → q.2.changed = true →
        CellFilt.computeChanged inputsChanged qcs = true)
    ∧ (inputs.changed = true → ¬(s.params.skip = some true ∧ skip = true) →
        (QC.compute env inputs s skip useMitoDefault mitoPref nmads).1.changed = true)
    ∧ (inputs.changed = true → s.params.skip = some true → skip = true →
        (QC.compute env inputs s skip useMitoDefault mitoPref nmads).1.changed = false) := by
  refine ⟨?_, ?_, ?_, ?_⟩
  · intro h
    rw [computeChanged_eq, h, Bool.true_or]
  · intro q hq hv hc
    rw [computeChanged_eq]
    have : qcs.any (fun q => q.2.valid && q.2.changed) = true :=
      List.any_eq_true.mpr ⟨q, hq, by rw [hv, hc]; rfl⟩
    rw [this, Bool.or_true]
  · intro h hns
    unfold QC.compute
    simp only [h, Bool.true_or]
    by_cases h1 : s.params.skip ≠ some skip
    · simp only [if_pos h1]
    · have h2 : ¬(s.params.skip = some true ∧ skip = true) := hns
      simp only [if_neg h1, if_neg h2]
  · intro h hsk hskip
    subst hskip
    unfold QC.compute
    simp [hsk]

/-- C1 witness: the amended propagation at concrete states — a changed
inputs step propagates through `CellFilteringState.compute` and through a
non-skipped `QualityControlState.compute` with identical parameters. -/
theorem C1_witness :
    CellFilt.computeChanged true [] = true ∧
    (QC.compute Fix.qcEnv Fix.inputsBusy Fix.qcComputed false true "mt-" 3).1.changed = true := by
  constructor
  · exact (C1_change_propagation_amended true [] Fix.qcEnv Fix.inputsBusy Fix.qcComputed
      false true "mt-" 3).1 rfl
  · exact (C1_change_propagation_amended true [] Fix.qcEnv Fix.inputsBusy Fix.qcComputed
      false true "mt-" 3).2.2.1 rfl (by decide)

/-- C2: a second `compute` with parameters identical to the stored
snapshot and no upstream change performs no recomputation and reports
`changed = false`.  For the UMAP embedding step the state (parameters,
reloaded results, worker buffers) is untouched and no worker message is
dispatched; for the clustering choice the state is likewise untouched. -/
theorem C2_idempotence
    (env : Umap.Env) (s : Umap.State) (k e m : ℚ) (a : Bool)
    (cs : Choose.State) (snnChanged kmeansChanged : Bool) (method : String) :
    (s.params = { numNeighbors := some k, numEpochs := some e,
                  minDist := some m, animate := some a } →
       Umap.compute env false s k e m a = ({ s with changed := false }, []))
    ∧ (cs.method = some method →
       ((method = "snn_graph" ∧ snnChanged = false)
         ∨ (method = "kmeans" ∧ kmeansChanged = false)) →
       Choose.compute snnChanged kmeansChanged cs method = { cs with changed := false }) := by
  constructor
  · intro hp
    unfold Umap.compute
    rw [hp]
    simp
  · intro hm hd
    obtain ⟨cm, cc⟩ := cs
    simp only at hm
    subst hm
    unfold Choose.compute
    rcases hd with ⟨h1, h2⟩ | ⟨h1, h2⟩ <;> subst h1 <;> subst h2 <;> simp

/-- C2 witness: idempotence at a concrete computed UMAP state
(`k = 15`, 500 epochs) and a concrete clustering choice. -/
theorem C2_witness :
    Umap.compute Fix.umapEnv false Fix.umapComputed 15 500 1 false
      = ({ Fix.umapComputed with changed := false }, [])
    ∧ Choose.compute false false { method := some "kmeans", changed := true } "kmeans"
      = { method := some "kmeans", changed := false } := by
  constructor
  · exact (C2_idempotence Fix.umapEnv Fix.umapComputed 15 500 1 false
      { method := some "kmeans", changed := true } false false "kmeans").1 rfl
  · exact (C2_idempotence Fix.umapEnv Fix.umapComputed 15 500 1 false
      { method := some "kmeans", changed := true } false false "kmeans").2 rfl
      (Or.inr ⟨rfl, rfl⟩)

/-- C9: counterexample.  The QC step has been computed (`skip = false`,
metrics and filters cached) and is now called with `skip = true`, identical
parameters and unchanged upstream: the cached metrics and filters are NOT
cleared — the cache is retained, so a later `skip = false` call will reuse
it rather than recompute as if never computed. -/
theorem C9_counterexample :
    Fix.qcComputed.cache.metrics = some Fix.qcMetrics ∧
    Fix.qcComputed.cache.filters = some Fix.qcFilters ∧
    (QC.compute Fix.qcEnv Fix.inputsQuiet Fix.qcComputed true true "mt-" 3).1.cache
      = Fix.qcComputed.cache ∧
    (QC.compute Fix.qcEnv Fix.inputsQuiet Fix.qcComputed true true "mt-" 3).2.1 = false := by
  refine ⟨rfl, rfl, ?_, ?_⟩ <;> decide

/-- C9 (amended): a `compute` call with `skip = true` clears the cached
metrics and filters only when the upstream inputs changed or the metric
parameters differ from the stored snapshot; with nothing changed, the
still-valid cache is retained.  A subsequent `skip = false` call re-runs
the metrics (resp. filters) kernel exactly when the upstream changed, the
corresponding parameters differ, or the corresponding cache entry is
absent — so re-enabling behaves as if never computed precisely when the
cache was actually cleared. -/
theorem C9_skip_cache_amended
    (env : QC.Env) (inputs : QC.InputsView) (s : QC.State)
    (u : Bool) (mp : String) (nm : ℚ) :
    ((inputs.changed = true ∨ s.params.useMitoDefault ≠ some u
        ∨ s.params.mitoPref ≠ some mp) →
      (QC.compute env inputs s true u mp nm).1.cache = { metrics := none, filters := none })
    ∧ ((inputs.changed = false ∧ s.params.useMitoDefault = some u
        ∧ s.params.mitoPref = some mp ∧ s.params.nmads = some nm) →
      (QC.compute env inputs s true u mp nm).1.cache = s.cache)
    ∧ ((QC.compute env inputs s false u mp nm).2.1 = true ↔
        (inputs.changed = true ∨ s.params.useMitoDefault ≠ some u
         ∨ s.params.mitoPref ≠ some mp ∨ s.cache.metrics = none))
    ∧ ((QC.compute env inputs s false u mp nm).2.2 = true ↔
        (inputs.changed = true ∨ s.params.useMitoDefault ≠ some u
         ∨ s.params.mitoPref ≠ some mp ∨ s.cache.metrics = none
         ∨ s.params.nmads ≠ some nm ∨ s.cache.filters = none)) := by
  refine ⟨?_, ?_, ?_, ?_⟩
  · intro h
    unfold QC.compute
    rcases h with h | h | h <;> simp [h] <;> split_ifs <;> rfl
  · rintro ⟨h1, h2, h3, h4⟩
    unfold QC.compute
    simp [h1, h2, h3, h4]
    split_ifs <;> rfl
  · unfold QC.compute
    split_ifs <;>
      simp [Option.isNone_iff_eq_none, or_assoc]
  · unfold QC.compute
    split_ifs <;>
      simp [Option.isNone_iff_eq_none, or_assoc, or_left_comm, or_comm]

/-- C9 witness: a skip call after an upstream change clears the cache, and
a later unskip call re-runs both kernels. -/
theorem C9_witness :
    (QC.compute Fix.qcEnv Fix.inputsBusy Fix.qcComputed true true "mt-" 3).1.cache
      = { metrics := none, filters := none }
    ∧ (QC.compute Fix.qcEnv Fix.inputsQuiet Fix.qcSkipped false true "mt-" 3).2.1 = true := by
  constructor
  · exact (C9_skip_cache_amended Fix.qcEnv Fix.inputsBusy Fix.qcComputed true "mt-" 3).1
      (Or.inl rfl)
  · exact (C9_skip_cache_amended Fix.qcEnv Fix.inputsQuiet Fix.qcSkipped true "mt-" 3).2.2.1.mpr
      (Or.inr (Or.inr (Or.inr rfl)))

/-- C4: for a previously-computed embedding with stored parameters
`(k0, e0, m0)`, `compute(k, e, m, a)` attaches a neighbor payload to its
worker message if and only if the upstream neighbor index changed, or the
neighbor count differs from the stored snapshot, or the state still holds a
deserialization-provided ("reloaded") result and this call actually
computes (i.e. is not the fully-cached short-circuit, which dispatches
nothing at all).  In particular a repeat call with identical parameters
and no upstream change sends no message, and a call with a different
neighbor count resends the neighbors. -/
theorem C4_reneighbor (env : Umap.Env) (s : Umap.State) (idxChanged : Bool)
    (k e m k0 e0 m0 : ℚ) (a : Bool)
    (hk : s.params.numNeighbors = some k0) (he : s.params.numEpochs = some e0)
    (hm : s.params.minDist = some m0) :
    (Umap.sendsNeighbors (Umap.compute env idxChanged s k e m a).2 = true ↔
       (idxChanged = true ∨ k ≠ k0 ∨
          (s.reloaded ≠ none ∧ ¬(idxChanged = false ∧ k = k0 ∧ e = e0 ∧ m = m0))))
    ∧ ((idxChanged = false ∧ k = k0 ∧ e = e0 ∧ m = m0) →
        (Umap.compute env idxChanged s k e m a).2 = [])
    ∧ (k ≠ k0 → Umap.sendsNeighbors (Umap.compute env idxChanged s k e m a).2 = true) := by
  unfold Umap.compute Umap.sendsNeighbors
  rw [hk, he, hm]
  by_cases hi : idxChanged = true <;>
    by_cases h1 : k = k0 <;>
      by_cases h2 : e = e0 <;>
        by_cases h3 : m = m0 <;>
          rcases hr : s.reloaded with _ | r <;>
            simp_all [eq_comm]

/-- C4 witness: with stored neighbor count 15, a call with `k = 20`
resends neighbors, while a repeat call with `k = 15` and identical
parameters dispatches nothing. -/
theorem C4_witness :
    Umap.sendsNeighbors
        (Umap.compute Fix.umapEnv false Fix.umapComputed 20 500 1 false).2 = true
    ∧ (Umap.compute Fix.umapEnv false Fix.umapComputed 15 500 1 false).2 = [] := by
  constructor
  · exact (C4_reneighbor Fix.umapEnv Fix.umapComputed false 20 500 1 15 500 1
      false rfl rfl rfl).2.2 (by norm_num)
  · exact (C4_reneighbor Fix.umapEnv Fix.umapComputed false 15 500 1 15 500 1
      false rfl rfl rfl).2.1 ⟨rfl, rfl, rfl, rfl⟩

/-- C3: serializing a computed step and unserializing the resulting
container yields a step whose `summary()` agrees field-by-field with the
original step's `summary()`.  Shown for the quality-control step (whose
deserialized filters are a `QCFiltersMimic` answering the same accessor
contract) and for the UMAP step (whose deserialized state answers
`summary()` from the reloaded coordinates; the worker invariant — a live
worker has processed exactly the stored `num_epochs` iterations — is the
boundary contract of the worker collaborator). -/
theorem C3_roundtrip {σ τ : Type}
    (splitMetricsByBlock : QC.Metrics → List String → Option (List ℤ) → List (String × σ))
    (formatOne : QC.Metrics → σ)
    (splitThresholdsByBlock : QC.ThreshTriple → List String → τ)
    (inputs : QC.InputsView)
    (sq sq2 : QC.State) (cq : QC.Container)
    (h1 : QC.serialize sq = some cq) (h2 : QC.unserialize cq = some sq2)
    (su : Umap.State) (cu : Umap.Container)
    (h3 : Umap.serialize su = some cu)
    (h4 : su.reloaded = none → su.params.numEpochs = some su.worker.iterations) :
    QC.summary splitMetricsByBlock formatOne splitThresholdsByBlock inputs sq2
      = QC.summary splitMetricsByBlock formatOne splitThresholdsByBlock inputs sq
    ∧ Umap.summary (Umap.unserialize cu) = Umap.summary su := by
  constructor
  · obtain ⟨⟨psk, pu, pmp, pnm⟩, ⟨cm, cf⟩, chg⟩ := sq
    cases psk with
    | none => simp [QC.serialize] at h1
    | some sk =>
      cases pu with
      | none => simp [QC.serialize] at h1
      | some u =>
        cases pmp with
        | none => simp [QC.serialize] at h1
        | some mp =>
          cases pnm with
          | none => simp [QC.serialize] at h1
          | some nm =>
            cases cf with
            | none =>
                simp only [QC.serialize, Option.map_none', Option.some.injEq] at h1
                subst h1
                simp only [QC.unserialize, Option.some.injEq] at h2
                subst h2
                cases sk <;> simp [QC.summary, QC.skipped]
            | some f =>
                simp only [QC.serialize, Option.map_some', Option.some.injEq] at h1
                subst h1
                simp only [QC.unserialize, QC.formatThresholds, Option.some.injEq] at h2
                subst h2
                cases sk <;> simp [QC.summary, QC.skipped]
  · obtain ⟨⟨pk, pe, pm, pa⟩, rel, w, chg⟩ := su
    cases pk with
    | none => simp [Umap.serialize] at h3
    | some k =>
      cases pe with
      | none => simp [Umap.serialize] at h3
      | some e =>
        cases pm with
        | none => simp [Umap.serialize] at h3
        | some m =>
          cases pa with
          | none => simp [Umap.serialize] at h3
          | some a =>
            cases rel with
            | some r =>
                simp only [Umap.serialize, Umap.fetchResults, Option.some.injEq] at h3
                subst h3
                simp [Umap.summary, Umap.unserialize, Umap.fetchResults]
            | none =>
                have h5 : some e = some w.iterations := h4 rfl
                simp only [Option.some.injEq] at h5
                simp only [Umap.serialize, Umap.fetchResults, Option.some.injEq] at h3
                subst h3
                simp [Umap.summary, Umap.unserialize, Umap.fetchResults, h5]

/-- C3 witness: the round trip at the concrete computed QC and UMAP
states and their serialized containers. -/
theorem C3_witness :
    QC.summary (fun _ _ _ => ([] : List (String × Unit))) (fun _ => ()) (fun _ _ => ())
        Fix.inputsQuiet Fix.qcComputed
      = QC.summary (fun _ _ _ => []) (fun _ => ()) (fun _ _ => ())
          Fix.inputsQuiet Fix.qcComputed
    ∧ Umap.summary (Umap.unserialize Fix.umapContainer) = Umap.summary Fix.umapComputed := by
  have h := C3_roundtrip (fun _ _ _ => ([] : List (String × Unit))) (fun _ => ())
    (fun _ _ => ()) Fix.inputsQuiet Fix.qcComputed Fix.qcComputed Fix.qcContainer
    (by decide) (by decide) Fix.umapComputed Fix.umapContainer (by decide) (fun _ => rfl)
  exact h


/-- C5: for the merge of multiple datasets, the chosen identifier family
maximizes the product over datasets of the per-dataset confidences, where
each dataset's representative column for a family is its
highest-confidence column for that family; only families with a
representative in every dataset are eligible; and if no family is
eligible, the merge fails with an explicit error.  (Ties keep the first
maximum in iteration order; confidences returned by the guesser are
nonnegative.) -/
theorem C5_feature_family_selection
    (ds : List (String × Feat.GeneTable)) (hne : ds ≠ [])
    (hconf : ∀ d ∈ ds, ∀ kv ∈ d.2, (0 : ℚ) ≤ kv.2.guess.confidence)
    (datasets : List (String × Feat.DS)) (dkeys : List String) (type : String)
    (hcg : Feat.collectGenes datasets type dkeys = .ok ds) :
    (∀ d ∈ ds, ∀ f c col, Feat.bestPerFamily d.2 f = some (c, col) →
       (∃ kv ∈ d.2, kv.1 = col ∧ kv.2.guess.fam = f ∧ kv.2.guess.confidence = c)
       ∧ ∀ kv ∈ d.2, kv.2.guess.fam = f → kv.2.guess.confidence ≤ c)
    ∧ (∀ f, Feat.eligible ds f ↔ ∀ d ∈ ds, ∃ kv ∈ d.2, kv.2.guess.fam = f)
    ∧ ((∃ f, Feat.eligible ds f) →
        ∃ f, (Feat.commonFeatureTypes ds).bestType = some f ∧ Feat.eligible ds f
          ∧ ∀ g, Feat.eligible ds g →
              (Feat.famScores ds g).prod ≤ (Feat.famScores ds f).prod)
    ∧ ((¬∃ f, Feat.eligible ds f) →
        (Feat.commonFeatureTypes ds).bestType = none
        ∧ Feat.bind_single_modality dkeys datasets type =
            .error "no common feature types available across all matrices") := by
  refine ⟨?_, ?_, ?_, ?_⟩
  · intro d hd f c col h
    exact bestPerFamily_some_spec d.2 f c col h
  · intro f
    exact eligible_iff ds f
  · rintro ⟨f0, hf0⟩
    obtain ⟨h1, h2, h3⟩ := cbt_go ds hne Feat.allFams ((-1000 : ℚ), none)
    have hprod0 : (0 : ℚ) ≤ (Feat.famScores ds f0).prod := by
      apply List.prod_nonneg
      intro c hc
      obtain ⟨d, hd, kv, hkv, -, hcv⟩ := famScores_mem ds f0 c hc
      rw [← hcv]
      exact hconf d hd kv hkv
    have hbig : (0 : ℚ) ≤ (Feat.allFams.foldl (Feat.cbtStep ds) ((-1000 : ℚ), none)).1 :=
      le_trans hprod0 (h3 f0 (mem_allFams f0) hf0)
    rcases h2 with h2 | ⟨f, hfmem, hf1, hf2, hf3⟩
    · exfalso
      rw [h2] at hbig
      norm_num at hbig
    · have hc : Feat.chooseBestType ds = some f := by
        unfold Feat.chooseBestType
        exact hf1
      refine ⟨f, ?_, hf2, ?_⟩
      · unfold Feat.commonFeatureTypes
        rw [hc]
      · intro g hg
        rw [hf3]
        exact h3 g (mem_allFams g) hg
  · intro hnone
    have hcbt : Feat.chooseBestType ds = none := by
      unfold Feat.chooseBestType
      obtain ⟨-, h2, -⟩ := cbt_go ds hne Feat.allFams ((-1000 : ℚ), none)
      rcases h2 with h2 | ⟨f, -, -, hf2, -⟩
      · rw [h2]
      · exact absurd ⟨f, hf2⟩ hnone
    have hcft : Feat.commonFeatureTypes ds = { bestType := none, bestFields := [] } := by
      unfold Feat.commonFeatureTypes
      rw [hcbt]
    constructor
    · rw [hcft]
    · unfold Feat.bind_single_modality
      rw [hcg]
      simp [hcft, bind, Except.bind]

/-- C5 witness: on the two concrete datasets, human Ensembl is eligible
(both datasets have a column of the family), and a dataset with no
gene-annotation columns makes the merge fail with the explicit error. -/
theorem C5_witness :
    Feat.eligible Fix.mergeTables Feat.Fam.ensemblHuman
    ∧ Feat.bind_single_modality ["A"] [("A", Fix.dsEmpty)] "RNA"
        = .error "no common feature types available across all matrices" := by
  constructor
  · exact ((C5_feature_family_selection Fix.mergeTables (by decide) (by decide)
      Fix.mergePair ["A", "B"] "RNA" rfl).2.1 Feat.Fam.ensemblHuman).mpr (by decide)
  · exact ((C5_feature_family_selection [("A", ([] : Feat.GeneTable))] (by decide) (by decide)
      [("A", Fix.dsEmpty)] ["A"] "RNA" rfl).2.2.2
      (by rintro ⟨f, hf⟩; cases f <;> exact absurd hf (by decide))).2


/-- C6: column-binding one modality keeps exactly the genes whose
join-key identifiers (the values of the winning family's chosen column
per dataset) are common to all datasets, in the order they appear in the
first dataset; the merged gene-annotation table is the first dataset's
annotation columns subset to those genes — no cross-dataset annotation
reconciliation. -/
theorem C6_merge_correctness
    (datasets : List (String × Feat.DS)) (dkeys : List String) (type : String)
    (ds : List (String × Feat.GeneTable))
    (hcg : Feat.collectGenes datasets type dkeys = .ok ds)
    (f : Feat.Fam) (hbt : (Feat.commonFeatureTypes ds).bestType = some f)
    (d0 : String × Feat.GeneTable) (rest : List (String × Feat.GeneTable))
    (hds : ds = d0 :: rest) :
    ∃ out, Feat.bind_single_modality dkeys datasets type = .ok out
      ∧ out.names = (Feat.chosenOf (Feat.commonFeatureTypes ds) d0).filter
          (fun n => rest.all (fun d => decide (n ∈ Feat.chosenOf (Feat.commonFeatureTypes ds) d)))
      ∧ out.indices = ((Feat.chosenOf (Feat.commonFeatureTypes ds) d0).enum.filter
          (fun e => rest.all (fun d =>
            decide (e.2 ∈ Feat.chosenOf (Feat.commonFeatureTypes ds) d)))).map (fun e => e.1)
      ∧ out.genes = Feat.subsetArrayCollection d0.2 out.indices
      ∧ out.names.length = out.indices.length := by
  subst hds
  have hg : Feat.gnamesOf (d0 :: rest) (Feat.commonFeatureTypes (d0 :: rest))
      = Feat.chosenOf (Feat.commonFeatureTypes (d0 :: rest)) d0
        :: rest.map (Feat.chosenOf (Feat.commonFeatureTypes (d0 :: rest))) := rfl
  have hbody : Feat.bind_single_modality dkeys datasets type
      = .ok { names := (Feat.cbindWithNames (Feat.gnamesOf (d0 :: rest)
                  (Feat.commonFeatureTypes (d0 :: rest)))).names,
              indices := (Feat.cbindWithNames (Feat.gnamesOf (d0 :: rest)
                  (Feat.commonFeatureTypes (d0 :: rest)))).indices,
              genes := Feat.subsetArrayCollection d0.2
                (Feat.cbindWithNames (Feat.gnamesOf (d0 :: rest)
                  (Feat.commonFeatureTypes (d0 :: rest)))).indices } := by
    unfold Feat.bind_single_modality
    rw [hcg]
    simp only [bind, Except.bind]
    rw [hbt]
    rfl
  rw [hbody, hg, cbindWithNames_cons]
  refine ⟨_, rfl, ?_, ?_, rfl, ?_⟩
  · show (Feat.chosenOf (Feat.commonFeatureTypes (d0 :: rest)) d0).filter
        (fun n => (rest.map (Feat.chosenOf (Feat.commonFeatureTypes (d0 :: rest)))).all
          (fun g => decide (n ∈ g))) = _
    simp only [all_map_general]
  · show ((Feat.chosenOf (Feat.commonFeatureTypes (d0 :: rest)) d0).enum.filter
        (fun e => (rest.map (Feat.chosenOf (Feat.commonFeatureTypes (d0 :: rest)))).all
          (fun g => decide (e.2 ∈ g)))).map (fun e => e.1) = _
    simp only [all_map_general]
  · show ((Feat.chosenOf (Feat.commonFeatureTypes (d0 :: rest)) d0).filter _).length
      = (((Feat.chosenOf (Feat.commonFeatureTypes (d0 :: rest)) d0).enum.filter _).map
          (fun e => e.1)).length
    rw [← enumFrom_filter_map_snd
      (fun n => (rest.map (Feat.chosenOf (Feat.commonFeatureTypes (d0 :: rest)))).all
        (fun g => decide (n ∈ g)))
      (Feat.chosenOf (Feat.commonFeatureTypes (d0 :: rest)) d0) 0]
    simp [List.length_map, List.enum]

/-- C6 witness: merging datasets A (genes g1, g2, g3) and B (genes g3,
g1) over human Ensembl identifiers yields the two common genes in A's
order, with A's annotation column subset accordingly. -/
theorem C6_witness :
    Feat.bind_single_modality ["A", "B"] Fix.mergePair "RNA"
      = .ok { names := ["g1", "g3"], indices := [0, 2],
              genes := [("id", ["g1", "g3"])] } := by
  have hbt : (Feat.commonFeatureTypes Fix.mergeTables).bestType
      = some Feat.Fam.ensemblHuman := by
    rw [show Fix.mergeTables
        = [("A", Fix.tableWith ["g1", "g2", "g3"]), ("B", Fix.tableWith ["g3", "g1"])] from rfl,
      commonFeatureTypes_tableWith]
  obtain ⟨out, h1, h2, h3, h4, -⟩ := C6_merge_correctness Fix.mergePair ["A", "B"] "RNA"
    Fix.mergeTables rfl Feat.Fam.ensemblHuman hbt
    ("A", Fix.tableWith ["g1", "g2", "g3"]) [("B", Fix.tableWith ["g3", "g1"])] rfl
  obtain ⟨onames, oind, ogenes⟩ := out
  simp only at h2 h3 h4
  subst h2
  subst h3
  subst h4
  rw [h1]
  rw [show Fix.mergeTables
      = [("A", Fix.tableWith ["g1", "g2", "g3"]), ("B", Fix.tableWith ["g3", "g1"])] from rfl,
    commonFeatureTypes_tableWith]
  rfl

/-- C8: a discard buffer that is a view over an upstream QC state's buffer
(`owner ≠ null`) is not written by `serialize`; an owned buffer is written.
On `unserialize`, when the `discards` dataset is absent, the buffer is
reconstructed as a view re-derived from the single valid upstream QC
state, and an error is thrown when that state is not unique. -/
theorem C8_view_serialization (s : CellFilt.State)
    (qcs : List (String × CellFilt.QCView)) (q : String × CellFilt.QCView) :
    (s.discardBuffer.owner ≠ none → (CellFilt.serialize s).discards = none)
    ∧ (s.discardBuffer.owner = none →
        (CellFilt.serialize s).discards = some s.discardBuffer.data)
    ∧ (s.discardBuffer.owner ≠ none → qcs.filter (fun x => x.2.valid) = [q] →
        CellFilt.unserialize (CellFilt.serialize s) qcs =
          .ok { discardBuffer := { data := q.2.discards, owner := some q.1 } })
    ∧ (s.discardBuffer.owner ≠ none → (qcs.filter (fun x => x.2.valid)).length ≠ 1 →
        CellFilt.unserialize (CellFilt.serialize s) qcs =
          .error
            "only one upstream QC state should be valid if \x27discards\x27 is not available") := by
  refine ⟨?_, ?_, ?_, ?_⟩
  · intro h
    simp [CellFilt.serialize, h]
  · intro h
    simp [CellFilt.serialize, h]
  · intro h hf
    simp [CellFilt.serialize, CellFilt.unserialize, h, hf]
  · intro h hl
    have hser : (CellFilt.serialize s).discards = none := by simp [CellFilt.serialize, h]
    unfold CellFilt.unserialize
    rw [hser]
    rcases hfl : qcs.filter (fun x => x.2.valid) with _ | ⟨q1, _ | ⟨q2, rest⟩⟩
    · rw [hfl]
    · exact absurd (by rw [hfl]; rfl) hl
    · rw [hfl]

/-- C8 witness: a view buffer round-trips through a container without a
`discards` dataset and is re-derived from the unique valid QC state; with
two valid QC states the load fails. -/
theorem C8_witness :
    (CellFilt.serialize Fix.cfViewState).discards = none
    ∧ CellFilt.unserialize (CellFilt.serialize Fix.cfViewState) Fix.qcViewsOne =
        .ok { discardBuffer := { data := [true, false], owner := some "RNA" } }
    ∧ CellFilt.unserialize (CellFilt.serialize Fix.cfViewState) Fix.qcViewsTwo =
        .error
          "only one upstream QC state should be valid if \x27discards\x27 is not available" := by
  refine ⟨?_, ?_, ?_⟩
  · exact (C8_view_serialization Fix.cfViewState Fix.qcViewsOne
      ("RNA", { valid := true, changed := false, discards := [true, false] })).1
      (by decide)
  · exact (C8_view_serialization Fix.cfViewState Fix.qcViewsOne
      ("RNA", { valid := true, changed := false, discards := [true, false] })).2.2.1
      (by decide) (by decide)
  · exact (C8_view_serialization Fix.cfViewState Fix.qcViewsTwo
      ("RNA", { valid := true, changed := false, discards := [true, false] })).2.2.2
      (by decide) (by decide)

/-- C7: the code contradicts its own documentation.  With two matrices
that both carry gene annotations of the same feature family but disjoint
identifiers, the documented behavior ("an error is raised ... [when] the
intersection of genes is empty") does not occur: `validateAnnotations`
returns successfully with `features["RNA"].common = 0`.  The missing
gene-annotation error of the same function does behave as documented. -/
theorem C7_divergence :
    Preflight.validateAnnotations [("A", Fix.pfNoGenes), ("B", Fix.pfB)]
      = .error "cannot find gene annotations for matrix \x27A\x27"
    ∧ Preflight.validateAnnotations [("A", Fix.pfA), ("B", Fix.pfB)]
      = .ok { annots := [("A", []), ("B", [])],
              features := [("RNA", { common := some 0,
                                     fields := some [("A", "id"), ("B", "id")] })] } := by
  constructor
  · rfl
  · have hf : Preflight.featFor true
        [("A", [("RNA", Fix.tableWith ["a"])]), ("B", [("RNA", Fix.tableWith ["b"])])] "RNA"
        = .ok { common := some 0, fields := some [("A", "id"), ("B", "id")] } := by
      unfold Preflight.featFor
      simp only [show List.map
            (fun kv => (kv.1, (Feat.jsGet kv.2 "RNA").getD []))
            [("A", [("RNA", Fix.tableWith ["a"])]), ("B", [("RNA", Fix.tableWith ["b"])])]
          = [("A", Fix.tableWith ["a"]), ("B", Fix.tableWith ["b"])] from rfl,
        commonFeatureTypes_tableWith]
      simp [Preflight.intersectChosen, Feat.jsGet, Fix.tableWith]
    unfold Preflight.validateAnnotations
    simp [Preflight.collectPF, Fix.pfA, Fix.pfB, Preflight.modalitiesOf, hf,
      Except.map, bind, Except.bind, List.mapM, List.mapM.loop, pure, Except.pure]

/-- C10: `InputsState.fetchParameters` and
`CustomSelectionsState.fetchSelections` hand out fresh copies of the
stored parameters.  For a well-formed store (every stored reference
already allocated, the outer `ranges` cell holding an array of inner
arrays): (1) the returned parameter object carries the same
`sample_factor`; (2) the copied subset reads back to exactly the stored
subset's value; (3) every array reference reachable from the returned
copy is disjoint from the stored subset's references; (4) overwriting
any array of the returned copy (`Function.update` at any reachable
reference) leaves the value denoted by the stored subset — what a
subsequent `compute`'s parameter comparison consults — unchanged; and
(5)–(7) the same holds for `fetchSelections`: equal read-back,
disjointness from the stored selection arrays, and mutation of any
returned array leaving the stored selections' value unchanged. -/
theorem C10_fresh_copies (st : FetchP.Store) (p : FetchP.InputsParamsR)
    (sel : FetchP.Selections)
    (hwf : FetchP.wfSubset st p)
    (hshape : ∀ sub rr, p.subset = some sub → sub.ranges = some rr →
        ∃ l, st.heap rr = FetchP.HVal.refs l)
    (hwfs : FetchP.wfSelections st sel) :
    ((FetchP.fetchParameters st p).1.sampleFactor = p.sampleFactor
      ∧ FetchP.readSubset (FetchP.fetchParameters st p).2.heap
          (FetchP.fetchParameters st p).1.subset
        = FetchP.readSubset st.heap p.subset
      ∧ (∀ r ∈ FetchP.subsetRefs (FetchP.fetchParameters st p).2.heap
            (FetchP.fetchParameters st p).1.subset,
          r ∉ FetchP.subsetRefs st.heap p.subset)
      ∧ (∀ r ∈ FetchP.subsetRefs (FetchP.fetchParameters st p).2.heap
            (FetchP.fetchParameters st p).1.subset, ∀ v,
          FetchP.readSubset
              (Function.update (FetchP.fetchParameters st p).2.heap r v) p.subset
            = FetchP.readSubset st.heap p.subset))
    ∧ (FetchP.readSelections (FetchP.fetchSelections st sel).2.heap
          (FetchP.fetchSelections st sel).1
        = FetchP.readSelections st.heap sel
      ∧ (∀ r ∈ FetchP.selRefs (FetchP.fetchSelections st sel).1,
          r ∉ FetchP.selRefs sel)
      ∧ (∀ r ∈ FetchP.selRefs (FetchP.fetchSelections st sel).1, ∀ v,
          FetchP.readSelections
              (Function.update (FetchP.fetchSelections st sel).2.heap r v) sel
            = FetchP.readSelections st.heap sel)) := by
  obtain ⟨c1, c2, c3, c4⟩ := cloneSubset_spec st p.subset hwf hshape
  obtain ⟨s1, s2, s3, s4⟩ := fetchSelections_spec st sel hwfs
  refine ⟨⟨rfl, c4, ?_, ?_⟩, s4, ?_, ?_⟩
  · intro r hr hmem
    have hfr := c3 r hr
    exact Nat.lt_irrefl r (Nat.lt_of_lt_of_le (hwf r hmem) hfr.1)
  · intro r hr v
    have hfr := c3 r hr
    apply readSubset_congr
    intro x hx
    have hxlt : x < st.next := hwf x hx
    rw [Function.update_apply,
      if_neg (Nat.ne_of_lt (Nat.lt_of_lt_of_le hxlt hfr.1))]
    exact c2 x hxlt
  · intro r hr hmem
    have hfr := s3 r hr
    exact Nat.lt_irrefl r (Nat.lt_of_lt_of_le (hwfs r hmem) hfr.1)
  · intro r hr v
    have hfr := s3 r hr
    apply readSelections_congr
    intro x hx
    have hxlt : x < st.next := hwfs x hx
    rw [Function.update_apply,
      if_neg (Nat.ne_of_lt (Nat.lt_of_lt_of_le hxlt hfr.1))]
    exact s2 x hxlt

/-- C10 witness: the concrete store `Fix.store0` (a `values` array at
ref 0, an inner range at ref 1, the outer `ranges` array at ref 2)
with parameters `Fix.params0` and selections `Fix.sel0` satisfies the
well-formedness hypotheses, and the copied selections read back equal to
the stored ones. -/
theorem C10_witness :
    FetchP.wfSubset Fix.store0 Fix.params0
    ∧ FetchP.wfSelections Fix.store0 Fix.sel0
    ∧ FetchP.readSelections (FetchP.fetchSelections Fix.store0 Fix.sel0).2.heap
        (FetchP.fetchSelections Fix.store0 Fix.sel0).1
      = FetchP.readSelections Fix.store0.heap Fix.sel0 :=
  ⟨by decide, by decide,
   (C10_fresh_copies Fix.store0 Fix.params0 Fix.sel0 (by decide)
      (by
        intro sub rr h1 h2
        have h1n : some Fix.subset0 = some sub := h1
        injection h1n with h1n
        subst h1n
        have h2n : some 2 = some rr := h2
        injection h2n with h2n
        subst h2n
        exact ⟨[1], rfl⟩)
      (by decide)).2.1⟩

end Bakana
